import Mathlib

/-!
# novel-crawler: a shallow embedding of `main.js`

The crawler scrapes a novel site and writes one e-book per chapter.  This
development embeds `main.js` function by function.  JavaScript strings are
Lean strings (the helpers work on their character lists), the process-wide
mutable objects `metadata` and `chapterList` together with the disk and the
console form an explicit `World` that every effectful function threads, and
the libraries the program calls (HTTP client, HTML parser, URL parser, e-book
writer) appear as the oracles of an `Env`.
-/

namespace NovelCrawler

/-! ## Strings -/

/-- The character class `[\w.-]` of the regular expression in `safe`
(`\w` is `[A-Za-z0-9_]`). -/
def isSafeChar (c : Char) : Bool :=
  c.isAlphanum || c == '_' || c == '.' || c == '-'

/-- The method `.replace(/C+/g, sub)` for a character class `C`, as a
left-to-right scan.  The flag tells whether the previous character already
belongs to the match in progress: a match emits `sub` at its first character
and swallows the characters of the class that follow. -/
def replaceRuns (inClass : Char → Bool) (sub : Char) : Bool → List Char → List Char
  | _, [] => []
  | inRun, c :: cs =>
    if inClass c then
      if inRun then replaceRuns inClass sub true cs
      else sub :: replaceRuns inClass sub true cs
    else c :: replaceRuns inClass sub false cs

/-- The alternative `_+$` of `/^_+|_+$/g`: it matches at a position exactly
when that position holds `'_'` and only `'_'` follows up to the end. -/
def stripTrailingUnderscores : List Char → List Char
  | [] => []
  | c :: cs =>
    if c == '_' && cs.all (fun d => d == '_') then []
    else c :: stripTrailingUnderscores cs

/-- The step `.replace(/^_+|_+$/g, '')` of `safe`: `^_+` can only match at
position 0 and takes the whole leading run, after which only `_+$` can match. -/
def stripEdgeUnderscores (s : List Char) : List Char :=
  stripTrailingUnderscores (s.dropWhile (fun d => d == '_'))

/-- `safe = s => String(s || '').replace(/[^\w.-]+/g, '_').replace(/^_+|_+$/g, '')`.
(A character outside the basic plane is two code units in JavaScript, both
outside the class and adjacent, so that the result is the same.) -/
def safe (s : String) : String :=
  String.mk (stripEdgeUnderscores (replaceRuns (fun c => !isSafeChar c) '_' false s.data))

/-- `String.prototype.padStart(target, fill)` for a one-character filler. -/
def padStart (target : Nat) (fill : Char) (s : List Char) : List Char :=
  List.replicate (target - s.length) fill ++ s

/-- `String.prototype.split(sep)` for a one-character separator. -/
def splitOnChar (sep : Char) : List Char → List (List Char)
  | [] => [[]]
  | c :: cs =>
    if c = sep then [] :: splitOnChar sep cs
    else
      match splitOnChar sep cs with
      | [] => [[c]]
      | seg :: segs => (c :: seg) :: segs

/-- The white space and line terminators that `String.prototype.trim` strips. -/
def isJsWhitespace (c : Char) : Bool :=
  let n := c.toNat
  n == 9 || n == 10 || n == 11 || n == 12 || n == 13 || n == 32 || n == 160 ||
  n == 5760 || (8192 ≤ n && n ≤ 8202) || n == 8232 || n == 8233 || n == 8239 ||
  n == 8287 || n == 12288 || n == 65279

/-- `String.prototype.trim`. -/
def jsTrim (s : String) : String :=
  String.mk ((s.data.dropWhile isJsWhitespace).reverse.dropWhile isJsWhitespace).reverse

/-! ## Paths (`path.posix`) -/

/-- One segment of Node's `normalizeString`, on the stack of kept segments
(most recent first): empty and `.` segments are dropped, `..` removes the last
kept segment unless there is none or it is itself `..`. -/
def normalizeStep (allowAboveRoot : Bool) (stack : List (List Char)) (seg : List Char) :
    List (List Char) :=
  if seg = [] ∨ seg = ['.'] then stack
  else if seg = ['.', '.'] then
    match stack with
    | [] => if allowAboveRoot then [seg] else []
    | top :: rest =>
      if top = ['.', '.'] then (if allowAboveRoot then seg :: stack else stack) else rest
  else seg :: stack

/-- The segments Node's `normalizeString` keeps, in path order. -/
def normalizeSegments (allowAboveRoot : Bool) (path : List Char) : List (List Char) :=
  ((splitOnChar '/' path).foldl (normalizeStep allowAboveRoot) []).reverse

/-- Node's `normalizeString(path, allowAboveRoot, '/')`. -/
def normalizeString (allowAboveRoot : Bool) (path : List Char) : List Char :=
  List.intercalate ['/'] (normalizeSegments allowAboveRoot path)

/-- `path.normalize`. -/
def pathNormalize (path : List Char) : List Char :=
  if path = [] then ['.']
  else
    let isAbsolute := path.head? == some '/'
    let trailingSeparator := path.getLast? == some '/'
    let p := normalizeString (!isAbsolute) path
    if p = [] then
      if isAbsolute then ['/'] else if trailingSeparator then ['.', '/'] else ['.']
    else
      let p := if trailingSeparator then p ++ ['/'] else p
      if isAbsolute then '/' :: p else p

/-- `path.join(a, b)`. -/
def pathJoin (a b : String) : String :=
  match [a.data, b.data].filter (fun arg => arg ≠ []) with
  | [] => "."
  | parts => String.mk (pathNormalize (List.intercalate ['/'] parts))

/-- `path.resolve(p)` in a process whose working directory is `cwd` (the value
of `process.cwd()`, an absolute path, so that the result is absolute); it is
also the way the operating system reads a path handed to `fs` (no symbolic
links). -/
def pathResolve (cwd p : String) : String :=
  let fromArg : List Char := if p.data = [] then [] else p.data ++ ['/']
  let resolved : List Char :=
    if p.data.head? == some '/' then fromArg else cwd.data ++ '/' :: fromArg
  String.mk ('/' :: normalizeString false resolved)

/-- `path.basename(p)`. -/
def pathBasename (p : String) : String :=
  match ((splitOnChar '/' p.data).filter (fun seg => seg ≠ [])).getLast? with
  | some seg => String.mk seg
  | none => ""

/-! ## Numbers

A chapter number is `Number(digits)` for a run of decimal digits, or `0`: a
non-negative integer-valued double, or `Infinity` when the digits overflow. -/

/-- The values a chapter number can take. -/
inductive JsNum where
  | fin (n : Nat)
  | inf
  deriving DecidableEq, Repr

/-- Number of binary digits of a positive natural number. -/
def bitLength (n : Nat) : Nat := (Nat.toDigits 2 n).length

/-- Rounding of a natural number to the nearest double (ties to even). -/
def toDouble (v : Nat) : JsNum :=
  if v < 2 ^ 53 then .fin v
  else
    let e := bitLength v - 53
    let q := v / 2 ^ e
    let r := v % 2 ^ e
    let half := 2 ^ (e - 1)
    let q := if half < r ∨ (r = half ∧ q % 2 = 1) then q + 1 else q
    if 2 ^ 1024 ≤ q * 2 ^ e then .inf else .fin (q * 2 ^ e)

/-- `Number(ds)` for a string of decimal digits. -/
def numberOfDigits (ds : List Char) : JsNum :=
  toDouble (ds.foldl (fun acc d => 10 * acc + (d.toNat - 48)) 0)

/-- Whether the real number `v` rounds to the double `x` (for `2^53 ≤ x`). -/
def roundsTo (x v : Nat) : Bool :=
  let e := bitLength x - 53
  let m := x / 2 ^ e
  let ulp := 2 ^ e
  let lowGap := if m = 2 ^ 52 then ulp / 2 else ulp
  if m % 2 = 0 then decide (2 * x - lowGap ≤ 2 * v ∧ 2 * v ≤ 2 * x + ulp)
  else decide (2 * x - lowGap < 2 * v ∧ 2 * v < 2 * x + ulp)

/-- The decimal value with the fewest significant digits that rounds to the
double `x`, the closest one (the even one on a tie) when there are two:
the choice of `n`, `k`, `s` in ECMAScript's `Number::toString`. -/
def shortestValue (x : Nat) : Nat :=
  let nd := (Nat.toDigits 10 x).length
  let pick := (List.range nd).findSome? fun i =>
    let p := 10 ^ (nd - (i + 1))
    let lo := (x / p) * p
    let hi := lo + p
    if roundsTo x lo && roundsTo x hi then
      some (if x - lo < hi - x then lo else if hi - x < x - lo then hi
            else if (x / p) % 2 = 0 then lo else hi)
    else if roundsTo x lo then some lo
    else if roundsTo x hi then some hi
    else none
  pick.getD x

/-- `String(x)` for a chapter number: plain decimal digits up to 21 digits,
exponent form beyond, `"Infinity"` for the overflow value. -/
def numberToString : JsNum → List Char
  | .inf => "Infinity".data
  | .fin x =>
    if x < 2 ^ 53 then Nat.toDigits 10 x
    else
      let ds := Nat.toDigits 10 (shortestValue x)
      let n := ds.length
      if n ≤ 21 then ds
      else
        match (ds.reverse.dropWhile (fun d => d == '0')).reverse with
        | [] => ds
        | [d] => d :: 'e' :: '+' :: Nat.toDigits 10 (n - 1)
        | d :: rest => d :: '.' :: rest ++ 'e' :: '+' :: Nat.toDigits 10 (n - 1)

/-- `x || 0` on a chapter number (only `0` is falsy). -/
def orZero : JsNum → JsNum
  | .fin 0 => .fin 0
  | x => x

/-- `String(n).padStart(3, '0')`. -/
def pad3 (n : JsNum) : String := String.mk (padStart 3 '0' (numberToString n))

/-! ## Output paths -/

/-- `const OUT_DIR = path.resolve('books')`. -/
def OUT_DIR (cwd : String) : String := pathResolve cwd "books"

/-- `const ASSETS_DIR = 'assets'`. -/
def ASSETS_DIR : String := "assets"

/-- The object `getChapterOutPath` returns. -/
structure ChapterOutPath where
  seriesFolder : String
  fileBase : String
  fullPath : String
  deriving DecidableEq, Repr

/-- `getChapterOutPath(seriesTitle, chapterNumber)`. -/
def getChapterOutPath (cwd seriesTitle : String) (chapterNumber : JsNum) : ChapterOutPath :=
  let cNum := pad3 (orZero chapterNumber)
  let seriesFolder := pathJoin (OUT_DIR cwd) (safe seriesTitle)
  let fileBase := seriesTitle ++ " - c" ++ cNum
  { seriesFolder := seriesFolder
    fileBase := fileBase
    fullPath := pathJoin seriesFolder (fileBase ++ ".epub") }

/-! ## URLs (the WHATWG `URL` class) -/

/-- The state of a `URL` object: the components of a parsed URL, the path in
its serialised form. -/
structure Url where
  scheme : String
  username : String
  password : String
  host : Option String
  port : Option Nat
  pathname : String
  opaquePath : Bool
  query : Option String
  fragment : Option String
  deriving DecidableEq, Repr

namespace Url

/-- The getter `href` (and `toString()`): the URL serialiser. -/
def href (u : Url) : String :=
  let authority :=
    match u.host with
    | none => ""
    | some h =>
      let credentials :=
        if u.username ≠ "" ∨ u.password ≠ "" then
          u.username ++ (if u.password ≠ "" then ":" ++ u.password else "") ++ "@"
        else ""
      "//" ++ credentials ++ h ++
        (match u.port with
         | none => ""
         | some p => ":" ++ String.mk (Nat.toDigits 10 p))
  let guard :=
    if u.host = none ∧ !u.opaquePath ∧ u.pathname.data.take 2 = ['/', '/'] then "/." else ""
  u.scheme ++ ":" ++ authority ++ guard ++ u.pathname ++
    (match u.query with
     | none => ""
     | some q => "?" ++ q) ++
    (match u.fragment with
     | none => ""
     | some f => "#" ++ f)

/-- The setter `u.pathname = value`, for a `value` that is the current
serialised path followed by `/` (the only use in the program): the path state
of the parser returns such a value as it is, and a URL with an opaque path
ignores the assignment. -/
def setPathname (u : Url) (value : String) : Url :=
  if u.opaquePath then u else { u with pathname := value }

/-- The setter `u.hash = ''`: the fragment becomes null. -/
def clearHash (u : Url) : Url := { u with fragment := none }

/-- The setter `u.search = ''`: the query becomes null. -/
def clearSearch (u : Url) : Url := { u with query := none }

end Url

/-- The test `/^\/novel\/[^/]+\/?$/.test(p)`: after the literal `/novel/` the
greedy `[^/]+` takes every character up to the next slash, and what is left
must be nothing or one final slash. -/
def novelPathRe (p : List Char) : Bool :=
  match p with
  | '/' :: 'n' :: 'o' :: 'v' :: 'e' :: 'l' :: '/' :: rest =>
    let slug := rest.takeWhile (fun c => c != '/')
    let tail := rest.dropWhile (fun c => c != '/')
    slug ≠ [] && (tail = [] || tail = ['/'])
  | _ => false

/-- `String.prototype.endsWith(c)` for a one-character string. -/
def endsWithChar (c : Char) (s : String) : Bool := s.data.getLast? == some c

/-- The URL object `normalizeNovelUrl` holds when it reaches `return`. -/
def normalizedUrl (u : Url) : Url :=
  let u := if !endsWithChar '/' u.pathname then u.setPathname (u.pathname ++ "/") else u
  (u.clearHash).clearSearch

/-- `normalizeNovelUrl(input)`; `parseUrl` is `new URL(input)`, which throws
(`none`) on a string that is not an absolute URL. -/
def normalizeNovelUrl (parseUrl : String → Option Url) (input : String) : Except String String :=
  match parseUrl input with
  | none => .error ("Invalid URL: " ++ input)
  | some u =>
    if !novelPathRe u.pathname.data then
      .error ("URL must be a novel root like /novel/<slug>/ : " ++ u.href)
    else .ok (normalizedUrl u).href

/-! ## The program state and its environment -/

/-- The numeric field `sequence` of the metadata: `0.5` or a chapter number. -/
inductive Sequence where
  | half
  | num (n : JsNum)
  deriving DecidableEq, Repr

/-- The object `metadata`. -/
structure Metadata where
  id : String
  cover : String
  title : String
  series : String
  sequence : Sequence
  author : String
  fileAs : String
  genre : String
  tags : String
  copyright : String
  publisher : String
  published : String
  language : String
  description : String
  contents : String
  showContents : Bool
  source : String
  images : List String
  deriving DecidableEq, Repr

/-- The initial value of `metadata` (the template of the source). -/
def metadataTemplate : Metadata :=
  { id := "placeholder", cover := "", title := "", series := "", sequence := .num (.fin 1),
    author := "Anonymous", fileAs := "Anonymous", genre := "", tags := "", copyright := "",
    publisher := "", published := "", language := "en", description := "",
    contents := "Chapters", showContents := false, source := "", images := [] }

/-- An entry `{ title, url, number }` of a chapter group (`url` is `undefined`
when the link has no `href`). -/
structure Chapter where
  title : String
  url : Option String
  number : JsNum
  deriving DecidableEq, Repr

/-- A chapter group `{ title, chapters }`. -/
structure Book where
  title : String
  chapters : List Chapter
  deriving DecidableEq, Repr

/-- An `a` element as the program reads it: its text and its `href`. -/
structure Anchor where
  text : String
  href : Option String
  deriving DecidableEq, Repr

/-- A `ul.list-chap` element: the text of `$(ul).prev('a')` and the elements
`$(ul).find('li.wp-manga-chapter a')` in document order. -/
structure ChapterContainer where
  prevLinkText : String
  anchors : List Anchor
  deriving DecidableEq, Repr

/-- A document loaded by `cheerio`, as the answers to the queries the program
makes on it (every list in document order). -/
structure Html where
  /-- The text of `$('.post-title').first()`. -/
  postTitle : String
  /-- The texts of `$(".author-content a[rel='tag']")`. -/
  authorLinks : List String
  /-- The texts of `$('.genres-content a[rel="tag"]')`. -/
  genreLinks : List String
  /-- The attribute `data-src` of `$('.summary_image img').first()`. -/
  coverDataSrc : Option String
  /-- The attribute `src` of `$('.summary_image img').first()`. -/
  coverSrc : Option String
  /-- The elements `$('ul.list-chap')`. -/
  listChap : List ChapterContainer
  /-- The elements `$('li.wp-manga-chapter a')`. -/
  chapterAnchors : List Anchor
  /-- The text of `$('#chapter-heading').first()`. -/
  chapterHeading : String
  /-- The value of `$('#novel-chapter-container').html()` after the removals. -/
  containerHtml : Option String
  deriving DecidableEq, Repr

/-- An entry of the disk. -/
inductive FsNode where
  | dir
  | file (data : String)
  deriving DecidableEq, Repr

/-- The disk: the entries by resolved absolute path (the first binding of a
path counts). -/
abbrev FileSystem := List (String × FsNode)

/-- A call `epub.addSection(title, content, excludeFromContents, isFrontMatter, overrideFilename)`. -/
structure Section where
  title : String
  content : String
  excludeFromContents : Bool
  isFrontMatter : Bool
  overrideFilename : Option String
  deriving DecidableEq, Repr

/-- What the program hands to `nodepub`: the metadata, the options and the
sections added. -/
structure EpubDoc where
  meta : Metadata
  styles : String
  sections : List Section
  deriving DecidableEq, Repr

/-- The state the program threads: the two process-wide objects, the disk and
the lines written to the console. -/
structure World where
  metadata : Metadata
  chapterList : List Book
  fs : FileSystem
  console : List String
  deriving DecidableEq, Repr

/-- The environment of a run: the working directory and the behaviour of the
libraries (the same request gets the same answer during the run). -/
structure Env where
  cwd : String
  /-- The constructor `new URL(input)`. -/
  parseUrl : String → Option Url
  /-- The constructor `new URL(relative, base)`. -/
  parseUrlWithBase : String → String → Option Url
  /-- The call `axios.get(url)` followed by `cheerio.load`; the argument is
  `none` for `undefined`. -/
  httpGet : Option String → Except String Html
  /-- The call `axios.get(url, { responseType: 'arraybuffer' })`. -/
  httpGetBinary : String → Except String String
  /-- The call `axios.post(url, null, ...)` before `validateStatus`: a transport
  error, or the status and the loaded body. -/
  httpPost : String → Except String (Nat × Html)
  /-- The calls `nodepub.document`, `addSection` and `epub.writeEPUB(folder, fileBase)`
  on the document built: the disk after the call, or the error thrown. -/
  writeEPUB : FileSystem → EpubDoc → String → String → Except String FileSystem
  /-- The value of `new Date().toISOString().slice(0, 10)`. -/
  today : String
  /-- The value of `new Date().getFullYear()`. -/
  year : String
  /-- The variable `process.env.NOVELS`. -/
  NOVELS : Option String
  /-- The variable `process.env.NOVELS_FILE`. -/
  NOVELS_FILE : Option String

/-- The functions `console.log`, `console.warn` and `console.error`. -/
def World.log (w : World) (line : String) : World :=
  { w with console := w.console ++ [line] }

/-- The stylesheet `CSS`. -/
def CSS : String :=
  "\n  body \x7b font-family: serif; line-height: 1.6; \x7d\n  h1, h2 \x7b page-break-after: avoid; \x7d\n  p \x7b margin: 0 0 1em; \x7d\n  img \x7b max-width: 100%; height: auto; \x7d\n"

/-! ## The disk -/

/-- The node at a path, if any. -/
def fsLookup (cwd : String) (fs : FileSystem) (p : String) : Option FsNode :=
  if pathResolve cwd p = "/" then some .dir else fs.lookup (pathResolve cwd p)

/-- `fs.existsSync(p)`. -/
def existsSync (cwd : String) (fs : FileSystem) (p : String) : Bool :=
  (fsLookup cwd fs p).isSome

/-- The directories from the root down to a resolved path, the path included. -/
def ancestorsOf (resolved : String) : List String :=
  (((splitOnChar '/' resolved.data).filter (fun seg => seg ≠ [])).inits.filter
      (fun segs => segs ≠ [])).map
    (fun segs => String.mk ('/' :: List.intercalate ['/'] segs))

/-- The loop of a recursive `mkdir` over the directories on the way. -/
def mkdirEach (p : String) : List String → FileSystem → Except String FileSystem
  | [], fs => .ok fs
  | d :: ds, fs =>
    match fs.lookup d with
    | some (.file _) => .error ("EEXIST: file already exists, mkdir '" ++ p ++ "'")
    | some .dir => mkdirEach p ds fs
    | none => mkdirEach p ds (fs ++ [(d, .dir)])

/-- `fsp.mkdir(p, { recursive: true })`: every missing directory on the way is
created, and a file on the way makes the call fail. -/
def mkdirRecursive (cwd : String) (fs : FileSystem) (p : String) : Except String FileSystem :=
  mkdirEach p (ancestorsOf (pathResolve cwd p)) fs

/-- The directory part of a resolved path. -/
def parentOf (resolved : String) : String :=
  match (ancestorsOf resolved).reverse with
  | _ :: parent :: _ => parent
  | _ => "/"

/-- `fsp.writeFile(p, data)`: the directory must exist and the target must not
be a directory. -/
def writeFile (cwd : String) (fs : FileSystem) (p data : String) : Except String FileSystem :=
  let target := pathResolve cwd p
  if fsLookup cwd fs (parentOf target) ≠ some .dir then
    .error ("ENOENT: no such file or directory, open '" ++ p ++ "'")
  else if fsLookup cwd fs target = some .dir then
    .error ("EISDIR: illegal operation on a directory, open '" ++ p ++ "'")
  else .ok ((target, .file data) :: fs.filter (fun e => e.1 ≠ target))

/-- `fs.readFileSync(p, 'utf8')`. -/
def readFileSync (cwd : String) (fs : FileSystem) (p : String) : Except String String :=
  match fsLookup cwd fs p with
  | some (.file data) => .ok data
  | some .dir => .error "EISDIR: illegal operation on a directory, read"
  | none => .error ("ENOENT: no such file or directory, open '" ++ p ++ "'")

/-! ## Helpers of the scrapers -/

/-- `resolveUrl(base, maybeRelative)`; `none` is `null`. -/
def resolveUrl (env : Env) (base maybeRelative : String) : Option String :=
  (env.parseUrlWithBase maybeRelative base).map Url.href

/-- The expression `a || b` on two attribute values, followed by the test
`if (raw)`: the first non-empty one. -/
def firstTruthy (a b : Option String) : Option String :=
  match a with
  | some x => if x ≠ "" then some x else b.filter (fun y => y ≠ "")
  | none => b.filter (fun y => y ≠ "")

/-- `(u.pathname.split('.').pop() || '').toLowerCase()`. -/
def extGuess (pathname : String) : String :=
  match (splitOnChar '.' pathname.data).getLast? with
  | some ext => String.mk (ext.map Char.toLower)
  | none => ""

/-- `ensureCover(imgUrl, outDir, baseName)`; `imgUrl` is `none` for `null`,
which `new URL` reads as the string `"null"`. -/
def ensureCover (env : Env) (imgUrl : Option String) (outDir baseName : String)
    (fs : FileSystem) : Except String String × FileSystem :=
  match mkdirRecursive env.cwd fs outDir with
  | .error e => (.error e, fs)
  | .ok fs1 =>
    match env.parseUrl (imgUrl.getD "null") with
    | none => (.error "Invalid URL", fs1)
    | some u =>
      let guess := extGuess u.pathname
      let ext := if guess ∈ ["jpg", "jpeg", "png", "gif", "webp"] then guess else "jpg"
      let filename := safe baseName ++ "." ++ ext
      let filePath := pathJoin outDir filename
      if existsSync env.cwd fs1 filePath then (.ok filePath, fs1)
      else
        match env.httpGetBinary (imgUrl.getD "null") with
        | .error e => (.error e, fs1)
        | .ok data =>
          match writeFile env.cwd fs1 filePath data with
          | .error e => (.error e, fs1)
          | .ok fs2 => (.ok filePath, fs2)

/-- `author.split(' ').reverse().join(', ')`. -/
def fileAsOf (author : String) : String :=
  String.mk (List.intercalate [',', ' '] (splitOnChar ' ' author.data).reverse)

/-- `getMetadata()`.  The first component of the result is the error thrown,
if any. -/
def getMetadata (env : Env) (w : World) : Option String × World :=
  match env.httpGet (some w.metadata.source) with
  | .error e => (some e, w)
  | .ok page =>
    let title :=
      if jsTrim page.postTitle ≠ "" then jsTrim page.postTitle
      else if w.metadata.series ≠ "" then w.metadata.series
      else "Series"
    let md := { w.metadata with title := title, series := title }
    let md :=
      match page.authorLinks with
      | [] => md
      | a :: _ => { md with author := jsTrim a, fileAs := fileAsOf (jsTrim a) }
    let md := { md with genre := ", ".intercalate (page.genreLinks.map jsTrim) }
    match firstTruthy page.coverDataSrc page.coverSrc with
    | some raw =>
      let coverUrl := resolveUrl env md.source raw
      match ensureCover env coverUrl ASSETS_DIR (md.title ++ "-cover") w.fs with
      | (.ok coverPath, fs1) =>
        (none, { w with metadata := { md with cover := coverPath }, fs := fs1,
                        console := w.console ++ ["✓ Cover ready: " ++ coverPath] })
      | (.error e, fs1) =>
        (none, { w with metadata := md, fs := fs1,
                        console := w.console ++ ["! Failed to download cover: " ++ e] })
    | none =>
      (none, { w with metadata := md, console := w.console ++ ["! No cover URL found"] })

/-- The word characters `\w` of a regular expression. -/
def isWordChar (c : Char) : Bool := c.isAlphanum || c == '_'

/-- The first match of `/\b(\d+)\b/`: the first maximal run of word characters
that consists of digits only.  `word` holds the characters of the run being
read. -/
def firstBareInteger : List Char → List Char → Option (List Char)
  | word, [] => if word ≠ [] ∧ word.all Char.isDigit then some word else none
  | word, c :: cs =>
    if isWordChar c then firstBareInteger (word ++ [c]) cs
    else if word ≠ [] ∧ word.all Char.isDigit then some word
    else firstBareInteger [] cs

/-- `Number((chapterTitle.match(/\b(\d+)\b/) || [])[1] ?? 0)`. -/
def chapterNumberOf (chapterTitle : String) : JsNum :=
  match firstBareInteger [] chapterTitle.data with
  | some ds => numberOfDigits ds
  | none => .fin 0

/-- The body of the callback of `.each` over the chapter links: what is pushed
to `book.chapters`, if anything. -/
def chapterOfAnchor (a : Anchor) : Option Chapter :=
  let chapterTitle := jsTrim a.text
  if chapterTitle = "" then none
  else some { title := chapterTitle, url := a.href, number := chapterNumberOf chapterTitle }

/-- The loop `.each((_, a) => { ...; book.chapters.push(...) })` from an empty
`book.chapters`. -/
def collectChapters (anchors : List Anchor) : List Chapter :=
  anchors.foldl
    (fun chapters a =>
      match chapterOfAnchor a with
      | some ch => chapters ++ [ch]
      | none => chapters)
    []

/-- The body of the callback of `$('ul.list-chap').each`: the group pushed to
`chapterList`. -/
def bookOfContainer (ul : ChapterContainer) : Book :=
  let title := if jsTrim ul.prevLinkText ≠ "" then jsTrim ul.prevLinkText else "Default"
  { title := title, chapters := (collectChapters ul.anchors).reverse }

/-- The part of `getChapterList` after `cheerio.load(data)`: the new value of
`chapterList` and the error thrown, if any. -/
def parseChapterList (page : Html) (chapterList : List Book) : Option String × List Book :=
  let chapterList := page.listChap.foldl (fun l ul => l ++ [bookOfContainer ul]) chapterList
  let chapterList :=
    if chapterList.length = 0 then
      chapterList ++ [{ title := "Default", chapters := (collectChapters page.chapterAnchors).reverse }]
    else chapterList
  if chapterList.length = 0 then
    (some "No chapters found via ajax or fallback parser.", chapterList)
  else (none, chapterList)

/-- The part of `getChapterList` before `cheerio.load(data)`: the document
that gets parsed (the answer of `ajax/chapters`, or the novel page when that
request fails or answers 404), or the error thrown. -/
def fetchChapterListPage (env : Env) (w : World) : Except String Html × World :=
  let w := w.log "Fetching chapters..."
  match env.parseUrlWithBase "ajax/chapters" w.metadata.source with
  | none => (.error "Invalid URL", w)
  | some u =>
    let ajaxUrl := u.href
    let w := (w.log w.metadata.source).log ajaxUrl
    let attempt : Except String Html :=
      match env.httpPost ajaxUrl with
      | .error e => .error e
      | .ok (status, body) =>
        if 200 ≤ status ∧ status < 500 then
          if status = 404 then .error ("ajax/chapters 404 at " ++ ajaxUrl) else .ok body
        else .error ("Request failed with status code " ++ String.mk (Nat.toDigits 10 status))
    match attempt with
    | .ok body => (.ok body, w)
    | .error e =>
      let w := w.log ("ajax/chapters failed, falling back to page parse: " ++ e)
      (env.httpGet (some w.metadata.source), w)

/-- `getChapterList()`. -/
def getChapterList (env : Env) (w : World) : Option String × World :=
  match fetchChapterListPage env w with
  | (.error e, w1) => (some e, w1)
  | (.ok page, w1) =>
    let r := parseChapterList page w1.chapterList
    (r.1, { w1 with chapterList := r.2 })

/-- `escapeHtml(s)`. -/
def escapeHtml (s : String) : String :=
  String.mk (s.data.flatMap fun c =>
    if c = '&' then "&amp;".data
    else if c = '<' then "&lt;".data
    else if c = '>' then "&gt;".data
    else if c = Char.ofNat 34 then "&quot;".data
    else if c = Char.ofNat 39 then "&#39;".data
    else [c])

/-- `getChapterHtml(chapterUrl)`: the field `html` of the result, or the error. -/
def getChapterHtml (env : Env) (chapterUrl : Option String) (w : World) :
    Except String String × World :=
  let w := w.log ("Fetching chapter: " ++ chapterUrl.getD "undefined")
  match env.httpGet chapterUrl with
  | .error e => (.error e, w)
  | .ok page =>
    let chapterTitle := jsTrim page.chapterHeading
    let inner := page.containerHtml.getD ""
    (.ok ("<h1>" ++ escapeHtml chapterTitle ++ "</h1>\n" ++ inner), w)

/-! ## Packaging and the runners -/

/-- The field `sequence` of the per-chapter metadata:
`isPrologue ? 0.5 : Number(chapter.number) || 1`. -/
def sequenceSafe (number : JsNum) : Sequence :=
  if number = .fin 0 then .half else .num number

/-- The metadata object `perChapterMeta` of `writeChapterEpub`. -/
def perChapterMeta (env : Env) (seriesMeta : Metadata) (chapter : Chapter) : Metadata :=
  { seriesMeta with
    series := seriesMeta.series
    sequence := sequenceSafe chapter.number
    id := String.mk (replaceRuns isJsWhitespace '-' false seriesMeta.series.data) ++ "-c" ++
      pad3 chapter.number
    title := seriesMeta.series ++ " — Chapter " ++ String.mk (numberToString chapter.number)
    description := chapter.title
    published := env.today
    showContents := false }

/-- The document `writeChapterEpub` builds before it calls `writeEPUB`. -/
def chapterEpub (env : Env) (seriesMeta : Metadata) (chapter : Chapter) (html : String) :
    EpubDoc :=
  { meta := perChapterMeta env seriesMeta chapter
    styles := CSS
    sections :=
      [ { title := "Copyright"
          content := "<p>© " ++ env.year ++ " " ++ seriesMeta.author ++ "</p>"
          excludeFromContents := true
          isFrontMatter := true
          overrideFilename := none },
        { title := chapter.title
          content := html
          excludeFromContents := false
          isFrontMatter := false
          overrideFilename := some ("chapter-" ++ pad3 chapter.number) } ] }

/-- `writeChapterEpub(seriesMeta, chapter)`, the chapter carrying its `html`. -/
def writeChapterEpub (env : Env) (seriesMeta : Metadata) (chapter : Chapter) (html : String)
    (w : World) : Option String × World :=
  let out := getChapterOutPath env.cwd seriesMeta.series chapter.number
  if existsSync env.cwd w.fs out.fullPath then
    (none, w.log ("• Skipping c" ++ pad3 chapter.number ++ " (already exists)"))
  else
    match mkdirRecursive env.cwd w.fs out.seriesFolder with
    | .error e => (some e, w)
    | .ok fs1 =>
      match env.writeEPUB fs1 (chapterEpub env seriesMeta chapter html) out.seriesFolder
          out.fileBase with
      | .error e => (some e, { w with fs := fs1 })
      | .ok fs2 =>
        (none, { w with fs := fs2,
                        console := w.console ++
                          ["✓ Wrote " ++ pathJoin out.seriesFolder (out.fileBase ++ ".epub")] })

/-- The inner loop of `processNovel`: `for (const ch of group.chapters)`. -/
def processChapters (env : Env) : List Chapter → World → Option String × World
  | [], w => (none, w)
  | ch :: rest, w =>
    let out := getChapterOutPath env.cwd w.metadata.series ch.number
    if existsSync env.cwd w.fs out.fullPath then
      processChapters env rest (w.log ("• Already on disk: " ++ pathBasename out.fullPath))
    else
      match getChapterHtml env ch.url w with
      | (.error e, w1) => (some e, w1)
      | (.ok html, w1) =>
        match writeChapterEpub env w1.metadata ch html w1 with
        | (some e, w2) => (some e, w2)
        | (none, w2) => processChapters env rest w2

/-- The outer loop of `processNovel`: `for (const group of chapterList)`. -/
def processGroups (env : Env) : List Book → World → Option String × World
  | [], w => (none, w)
  | group :: rest, w =>
    match processChapters env group.chapters (w.log ("\nGroup: " ++ group.title)) with
    | (some e, w1) => (some e, w1)
    | (none, w1) => processGroups env rest w1

/-- The assignments at the head of `processNovel` (`// reset per novel`). -/
def resetPerNovel (novelUrl : String) (w : World) : World :=
  { w with
    metadata := { w.metadata with source := novelUrl, cover := "", images := [], series := "",
                                  title := "" }
    chapterList := [] }

/-- `processNovel(novelUrl)`. -/
def processNovel (env : Env) (novelUrl : String) (w : World) : Option String × World :=
  let w := (resetPerNovel novelUrl w).log ("\n=== Processing novel: " ++ novelUrl ++ " ===")
  match getMetadata env w with
  | (some e, w1) => (some e, w1)
  | (none, w1) =>
    match getChapterList env w1 with
    | (some e, w2) => (some e, w2)
    | (none, w2) => processGroups env w2.chapterList w2

/-- The lines of `txt.split(/\r?\n/)`. -/
def splitLines (txt : List Char) : List (List Char) :=
  let parts := splitOnChar '\n' txt
  (parts.dropLast.map fun l => if l.getLast? = some '\r' then l.dropLast else l) ++
    (match parts.getLast? with
     | some l => [l]
     | none => [])

/-- `getRequestedNovelUrls()`. -/
def getRequestedNovelUrls (env : Env) (fs : FileSystem) : Except String (List String) :=
  let fromEnv : List String :=
    match env.NOVELS with
    | some v =>
      if v ≠ "" then
        ((splitOnChar ',' v.data).map fun x => jsTrim (String.mk x)).filter fun x => x ≠ ""
      else []
    | none => []
  let filePath :=
    match env.NOVELS_FILE with
    | some f => if f ≠ "" then f else pathResolve env.cwd "./novels.txt"
    | none => pathResolve env.cwd "./novels.txt"
  let fromFile : Except String (List String) :=
    if existsSync env.cwd fs filePath then
      match readFileSync env.cwd fs filePath with
      | .error e => .error e
      | .ok txt =>
        .ok (((splitLines txt.data).map fun l => jsTrim (String.mk l)).filter fun l =>
          l ≠ "" ∧ l.data.head? ≠ some '#')
    else .ok []
  match fromFile with
  | .error e => .error e
  | .ok lines =>
    let normalized : Except String (List String) :=
      (fromEnv ++ lines).mapM fun u =>
        match normalizeNovelUrl env.parseUrl u with
        | .ok nu => .ok nu
        | .error e => .error ("Bad URL \"" ++ u ++ "\": " ++ e)
    match normalized with
    | .error e => .error e
    | .ok urls =>
      if urls.eraseDups.length = 0 then
        .error "Provide novel URLs via NOVELS or NOVELS_FILE (e.g., novels.txt)."
      else .ok urls.eraseDups

/-- The loop of `main` over a runner `proc` for one novel: every URL is handed
to `proc` inside `try`, and `catch` logs the error.  The result carries the
error that leaves the loop (if any), the URLs handed to `proc` so far, and the
state. -/
def runNovels {σ : Type} (proc : String → σ → Option String × σ)
    (logError : String → σ → σ) :
    List String → List String → σ → Option String × List String × σ
  | [], calls, st => (none, calls, st)
  | url :: rest, calls, st =>
    match proc url st with
    | (none, st1) => runNovels proc logError rest (calls ++ [url]) st1
    | (some e, st1) =>
      runNovels proc logError rest (calls ++ [url])
        (logError ("! Failed for " ++ url ++ ": " ++ e) st1)

/-- The function `main` over a runner `proc` for one novel.  The result carries
the error `main` throws (if any), the URLs handed to `proc`, and the state. -/
def mainWith (env : Env) (proc : String → World → Option String × World) (w : World) :
    Option String × List String × World :=
  match getRequestedNovelUrls env w.fs with
  | .error e => (some e, [], w)
  | .ok urls =>
    match mkdirRecursive env.cwd w.fs (OUT_DIR env.cwd) with
    | .error e => (some e, [], w)
    | .ok fs1 => runNovels proc (fun line st => st.log line) urls [] { w with fs := fs1 }

/-- `main()`. -/
def main (env : Env) (w : World) : Option String × List String × World :=
  mainWith env (processNovel env) w

/-- `runJobOnce()` (the time stamps of its log lines left out): an error of
`main` is caught and logged. -/
def runJobOnce (env : Env) (w : World) : World :=
  let w := w.log "Starting crawl run"
  match main env w with
  | (none, _, w1) => w1.log "Crawl run completed"
  | (some e, _, w1) => w1.log ("Crawl run failed: " ++ e)

/-! ## Specification-side definitions -/

/-- The maximal runs of a string: the blocks of consecutive characters on
which `p` takes the same value, in order. -/
def maximalRuns (p : Char → Bool) : List Char → List (List Char)
  | [] => []
  | c :: cs =>
    match maximalRuns p cs with
    | [] => [[c]]
    | run :: runs =>
      if run.head?.map p = some (p c) then (c :: run) :: runs else [c] :: run :: runs

/-- The sanitiser in the words of the specification: every maximal run of
characters outside `[A-Za-z0-9_.-]` becomes a single `'_'`, then all leading
and trailing `'_'` are removed. -/
def safeSpec (s : String) : String :=
  let replaced :=
    (maximalRuns (fun c => !isSafeChar c) s.data).flatMap fun run =>
      if run.head?.map isSafeChar = some false then ['_'] else run
  String.mk ((replaced.dropWhile (fun d => d == '_')).rdropWhile (fun d => d == '_'))

/-- The path shape of the specification: `/novel/<slug>` or `/novel/<slug>/`
for a non-empty `slug` without a slash. -/
def IsNovelRootPath (p : String) : Prop :=
  ∃ slug : List Char, slug ≠ [] ∧ '/' ∉ slug ∧
    (p.data = "/novel/".data ++ slug ∨ p.data = "/novel/".data ++ slug ++ ['/'])

/-- A URL parser given by a finite table of inputs, for examples. -/
def tableParse (table : List (String × Url)) (x : String) : Option Url := table.lookup x

/-- The URL `https://<host><path>` with optional query and fragment. -/
def httpsUrl (host path : String) (query fragment : Option String) : Url :=
  { scheme := "https", username := "", password := "", host := some host, port := none,
    pathname := path, opaquePath := false, query := query, fragment := fragment }

/-- The parses of the two URLs of the end-to-end scenario of the specification. -/
def scenarioUrls : List (String × Url) :=
  [ ("https://example.com/novel/test-series/?ref=x#frag",
      httpsUrl "example.com" "/novel/test-series/" (some "ref=x") (some "frag")),
    ("https://example.com/novel/test-series/",
      httpsUrl "example.com" "/novel/test-series/" none none) ]

/-- The chapter entries of a list of links in document order, in the words of
the specification: the links whose visible text is empty are left out, and
each entry keeps its title, its URL and the number parsed from the title. -/
def entriesInDocumentOrder (anchors : List Anchor) : List Chapter :=
  (anchors.filter fun a => jsTrim a.text ≠ "").map fun a =>
    { title := jsTrim a.text, url := a.href, number := chapterNumberOf (jsTrim a.text) }

/-- The group of a container in the words of the specification: the title of
the preceding link (`"Default"` when empty) and the entries oldest first. -/
def groupOfContainer (ul : ChapterContainer) : Book :=
  { title := if jsTrim ul.prevLinkText ≠ "" then jsTrim ul.prevLinkText else "Default"
    chapters := (entriesInDocumentOrder ul.anchors).reverse }

/-- A document without any of the elements the program looks for. -/
def emptyHtml : Html :=
  { postTitle := "", authorLinks := [], genreLinks := [], coverDataSrc := none,
    coverSrc := none, listChap := [], chapterAnchors := [], chapterHeading := "",
    containerHtml := none }

/-- An environment for examples: the working directory is `/app`, the URL
parser knows the two URLs of the scenario, the e-book writer writes
`<folder>/<fileBase>.epub`, and the HTTP answers are the arguments. -/
def exampleEnv (httpGet : Option String → Except String Html)
    (httpPost : String → Except String (Nat × Html)) : Env :=
  { cwd := "/app"
    parseUrl := tableParse scenarioUrls
    parseUrlWithBase := fun rel base =>
      (tableParse scenarioUrls base).map fun u => { u with pathname := u.pathname ++ rel }
    httpGet := httpGet
    httpGetBinary := fun _ => .error "no image"
    httpPost := httpPost
    writeEPUB := fun fs _ folder fileBase =>
      writeFile "/app" fs (folder ++ "/" ++ fileBase ++ ".epub") "epub"
    today := "2024-01-01"
    year := "2024"
    NOVELS := some "https://example.com/novel/test-series/?ref=x#frag"
    NOVELS_FILE := none }

/-- The state of a process that has just started on an empty disk. -/
def initialWorld : World :=
  { metadata := metadataTemplate, chapterList := [], fs := [], console := [] }

/-- The chapter list of the scenario: one container listing `Chapter 2` before
`Chapter 1`, with a link without text in between. -/
def scenarioChapterPage : Html :=
  { emptyHtml with
    listChap :=
      [ { prevLinkText := ""
          anchors :=
            [ { text := "Chapter 2", href := some "https://example.com/c2" },
              { text := "  ", href := none },
              { text := " Chapter 1 ", href := some "https://example.com/c1" } ] } ] }

/-- The environment of the scenario for the chapter list: `ajax/chapters`
answers with the scenario list. -/
def scenarioListEnv : Env :=
  exampleEnv (fun _ => .error "offline") (fun _ => .ok (200, scenarioChapterPage))

/-- The state in which `getChapterList` runs in the scenario. -/
def scenarioStart : World :=
  { initialWorld with
    metadata := { metadataTemplate with source := "https://example.com/novel/test-series/" } }

/-- An environment in which every document is empty: no chapter entry is found
by either scan. -/
def emptyListEnv : Env :=
  exampleEnv (fun _ => .ok emptyHtml) (fun _ => .ok (200, emptyHtml))

/-- A segment that `normalizeString` keeps as it is. -/
def PlainSegment (seg : List Char) : Prop :=
  seg ≠ [] ∧ '/' ∉ seg ∧ seg ≠ ['.'] ∧ seg ≠ ['.', '.']

/-- The contract of the e-book writer: when `writeEPUB(folder, fileBase)`
succeeds, the file `<folder>/<fileBase>.epub` is on the disk. -/
def WriterContract (env : Env) : Prop :=
  ∀ (fs : FileSystem) (doc : EpubDoc) (folder fileBase : String) (fs1 : FileSystem),
    env.writeEPUB fs doc folder fileBase = .ok fs1 →
      existsSync env.cwd fs1 (folder ++ "/" ++ fileBase ++ ".epub") = true

/-- The metadata of the series `My Novel`, as `getMetadata` leaves it. -/
def myNovelMeta : Metadata :=
  { metadataTemplate with
    title := "My Novel", series := "My Novel", source := "https://example.com/novel/test-series/" }

/-- Chapter 7 of the series `My Novel`. -/
def chapterSeven : Chapter :=
  { title := "Chapter 7", url := some "https://example.com/c7", number := .fin 7 }

/-- The chapter number in the words of the specification: its decimal digits,
left-padded with zeros to at least 3 digits. -/
def decimalPad3 (n : Nat) : String :=
  String.mk (List.replicate (3 - (Nat.toDigits 10 n).length) '0' ++ Nat.toDigits 10 n)

/-- An absolute path in normal form: `/` followed by plain segments joined by `/`. -/
def NormalAbsolute (a : String) : Prop :=
  ∃ N : List (List Char), N ≠ [] ∧ (∀ s ∈ N, PlainSegment s) ∧
    a.data = '/' :: List.intercalate ['/'] N

/-- A chapter list with three chapters, newest first. -/
def threeChapterPage : Html :=
  { emptyHtml with
    listChap :=
      [ { prevLinkText := "Volume 1"
          anchors :=
            [ { text := "Chapter 3", href := some "https://example.com/c3" },
              { text := "Chapter 2", href := some "https://example.com/c2" },
              { text := "Chapter 1", href := some "https://example.com/c1" } ] } ] }

/-- An environment in which the novel has three chapters and the content of
chapter 2 cannot be fetched, while chapters 1 and 3 can. -/
def secondChapterFailsEnv : Env :=
  exampleEnv
    (fun u =>
      if u = some "https://example.com/novel/test-series/" then
        .ok { emptyHtml with postTitle := "My Novel" }
      else if u = some "https://example.com/c1" then
        .ok { emptyHtml with chapterHeading := "Chapter 1", containerHtml := some "<p>one</p>" }
      else if u = some "https://example.com/c3" then
        .ok { emptyHtml with chapterHeading := "Chapter 3", containerHtml := some "<p>three</p>" }
      else .error "timeout")
    (fun _ => .ok (200, threeChapterPage))

/-- The parses of the URLs of two novels. -/
def twoNovelUrls : List (String × Url) :=
  [ ("https://example.com/novel/a/", httpsUrl "example.com" "/novel/a/" none none),
    ("https://example.com/novel/b/", httpsUrl "example.com" "/novel/b/" none none) ]

/-- An environment with two requested novels without chapters: the landing
page of the first one has the author link `Jane Doe`, the landing page of the
second one has no author link. -/
def twoNovelsEnv : Env :=
  { exampleEnv
      (fun u =>
        if u = some "https://example.com/novel/a/" then
          .ok { emptyHtml with postTitle := "Novel A", authorLinks := ["Jane Doe"] }
        else if u = some "https://example.com/novel/b/" then
          .ok { emptyHtml with postTitle := "Novel B" }
        else .error "timeout")
      (fun _ => .ok (200, emptyHtml)) with
    parseUrl := tableParse twoNovelUrls
    parseUrlWithBase := fun rel base =>
      (tableParse twoNovelUrls base).map fun u => { u with pathname := u.pathname ++ rel }
    NOVELS := some "https://example.com/novel/a/, https://example.com/novel/b/" }

/-- A disk on which `books` is a regular file of the working directory. -/
def booksIsAFile : World :=
  { initialWorld with fs := [("/app", .dir), ("/app/books", .file "notes")] }

/-! # Theorems -/

/-! ## The sanitiser `safe` -/

/-- The maximal runs of a string are a partition of it into non-empty blocks on
which the class is constant and which alternate between inside and outside. -/
theorem maximalRuns_partition (p : Char → Bool) (l : List Char) :
    (maximalRuns p l).flatten = l ∧
    (∀ run ∈ maximalRuns p l, run ≠ [] ∧ ∀ c ∈ run, some (p c) = run.head?.map p) ∧
    List.Chain' (fun r₁ r₂ => r₁.head?.map p ≠ r₂.head?.map p) (maximalRuns p l) := by
  induction l with
  | nil => simp [maximalRuns]
  | cons c cs ih =>
    obtain ⟨ih1, ih2, ih3⟩ := ih
    simp only [maximalRuns]
    cases hR : maximalRuns p cs with
    | nil =>
      rw [hR] at ih1
      simp only [List.flatten_nil] at ih1
      subst ih1
      simp
    | cons run runs =>
      rw [hR] at ih1 ih2 ih3
      have hrun := ih2 run (by simp)
      simp only [List.flatten_cons] at ih1
      by_cases hsame : run.head?.map p = some (p c)
      · simp only [hsame, if_true]
        refine ⟨by simp [← ih1], ?_, ?_⟩
        · intro r hr
          simp only [List.mem_cons] at hr
          rcases hr with rfl | hr
          · refine ⟨by simp, ?_⟩
            intro d hd
            simp only [List.mem_cons] at hd
            rcases hd with rfl | hd
            · simp
            · rw [hrun.2 d hd, hsame]
              simp
          · exact ih2 r (by simp [hr])
        · cases runs with
          | nil => simp
          | cons r2 rs =>
            rw [List.chain'_cons] at ih3 ⊢
            refine ⟨?_, ih3.2⟩
            have := ih3.1
            simpa [hsame] using this
      · simp only [hsame, if_false]
        refine ⟨by simp [← ih1], ?_, ?_⟩
        · intro r hr
          simp only [List.mem_cons] at hr
          rcases hr with rfl | hr
          · simp
          · exact ih2 r (by simpa using hr)
        · rw [List.chain'_cons]
          refine ⟨?_, ih3⟩
          intro h
          apply hsame
          rw [← h]
          simp

theorem replaceRuns_eq_runs (p : Char → Bool) (sub : Char) (l : List Char) (inRun : Bool) :
    replaceRuns p sub inRun l =
      match maximalRuns p l with
      | [] => []
      | run :: runs =>
        (if run.head?.map p = some true then (if inRun then [] else [sub]) else run) ++
          runs.flatMap fun r => if r.head?.map p = some true then [sub] else r := by
  induction l generalizing inRun with
  | nil => simp [replaceRuns, maximalRuns]
  | cons c cs ih =>
    have ihT := ih true
    have ihF := ih false
    simp only [replaceRuns, maximalRuns]
    cases hR : maximalRuns p cs with
    | nil =>
      rw [hR] at ihT ihF
      simp only at ihT ihF
      simp only [ihT, ihF]
      cases hp : p c <;> cases inRun <;> simp [hp]
    | cons run runs =>
      rw [hR] at ihT ihF
      simp only at ihT ihF
      simp only [ihT, ihF]
      cases run with
      | nil => cases hp : p c <;> cases inRun <;> simp [hp]
      | cons d ds =>
        cases hp : p c <;> cases hd : p d <;> cases inRun <;> simp [hp, hd]

theorem stripTrailing_eq_rdropWhile (l : List Char) :
    stripTrailingUnderscores l = l.rdropWhile (fun d => d == '_') := by
  induction l with
  | nil => simp [stripTrailingUnderscores]
  | cons c cs ih =>
    simp only [stripTrailingUnderscores, ih, List.rdropWhile, List.reverse_cons,
      List.dropWhile_append]
    by_cases hall : ∀ d ∈ cs, d = '_'
    · have h1 : List.dropWhile (fun d => d == '_') cs.reverse = [] := by
        rw [List.dropWhile_eq_nil_iff]
        intro d hd
        simpa using hall d (List.mem_reverse.mp hd)
      have h2 : (cs.all fun d => d == '_') = true := by
        rw [List.all_eq_true]
        intro d hd
        simpa using hall d hd
      by_cases hc : c = '_'
      · simp [h1, h2, hc, List.dropWhile]
      · have hc2 : (c == '_') = false := by simpa using hc
        simp [h1, hc2, List.dropWhile]
    · have h1 : List.dropWhile (fun d => d == '_') cs.reverse ≠ [] := by
        rw [Ne, List.dropWhile_eq_nil_iff]
        intro h
        exact hall fun d hd => by simpa using h d (List.mem_reverse.mpr hd)
      have h2 : (cs.all fun d => d == '_') = false := by
        rw [← Bool.not_eq_true, List.all_eq_true]
        intro h
        exact hall fun d hd => by simpa using h d hd
      simp [h1, h2]

theorem replaceRuns_safe (l : List Char) (inRun : Bool) :
    ∀ c ∈ replaceRuns (fun c => !isSafeChar c) '_' inRun l, isSafeChar c = true := by
  induction l generalizing inRun with
  | nil => simp [replaceRuns]
  | cons d ds ih =>
    intro c hc
    simp only [replaceRuns] at hc
    by_cases hd : isSafeChar d = true
    · simp only [hd, Bool.not_true, Bool.false_eq_true, if_false, List.mem_cons] at hc
      rcases hc with rfl | hc
      · exact hd
      · exact ih false c hc
    · simp only [Bool.not_eq_true] at hd
      simp only [hd, Bool.not_false, if_true] at hc
      cases inRun with
      | true => exact ih true c (by simpa using hc)
      | false =>
        simp only [Bool.false_eq_true, if_false, List.mem_cons] at hc
        rcases hc with rfl | hc
        · decide
        · exact ih true c hc

/-- C10: `safe(s)` is `s` with every maximal run of characters outside
`[A-Za-z0-9_.-]` replaced by one `'_'` and then all leading and trailing `'_'`
removed; the result holds only characters of the class and neither starts nor
ends with `'_'`. -/
theorem safe_eq_safeSpec (s : String) :
    safe s = safeSpec s ∧
      (∀ c ∈ (safe s).data, isSafeChar c = true) ∧
      (safe s).data.head? ≠ some '_' ∧ (safe s).data.getLast? ≠ some '_' := by
  have hdata : (safe s).data =
      ((replaceRuns (fun c => !isSafeChar c) '_' false s.data).dropWhile
        (fun d => d == '_')).rdropWhile (fun d => d == '_') := by
    simp [safe, stripEdgeUnderscores, stripTrailing_eq_rdropWhile]
  refine ⟨?_, ?_, ?_, ?_⟩
  · apply String.ext
    rw [hdata]
    simp only [safeSpec]
    rw [replaceRuns_eq_runs]
    have hf : (fun run : List Char =>
        if run.head?.map isSafeChar = some false then ['_'] else run) =
        fun r => if r.head?.map (fun c => !isSafeChar c) = some true then ['_'] else r := by
      funext r
      cases r with
      | nil => simp
      | cons a t => cases h : isSafeChar a <;> simp [h]
    rw [hf]
    cases maximalRuns (fun c => !isSafeChar c) s.data with
    | nil => simp
    | cons run runs => simp [List.flatMap_cons]
  · intro c hc
    rw [hdata] at hc
    have h1 := (List.rdropWhile_prefix (fun d => d == '_')
      ((replaceRuns (fun c => !isSafeChar c) '_' false s.data).dropWhile
        (fun d => d == '_'))).subset hc
    exact replaceRuns_safe _ _ c ((List.dropWhile_suffix _).subset h1)
  · rw [hdata]
    intro h
    obtain ⟨t, ht⟩ := List.rdropWhile_prefix (fun d => d == '_')
      ((replaceRuns (fun c => !isSafeChar c) '_' false s.data).dropWhile (fun d => d == '_'))
    cases hR : List.rdropWhile (fun d => d == '_')
      ((replaceRuns (fun c => !isSafeChar c) '_' false s.data).dropWhile
        (fun d => d == '_')) with
    | nil => rw [hR] at h; simp at h
    | cons a R =>
      rw [hR] at h ht
      simp only [List.head?_cons, Option.some.injEq] at h
      subst h
      have := List.head?_dropWhile_not (fun d => d == '_')
        (replaceRuns (fun c => !isSafeChar c) '_' false s.data)
      rw [← ht] at this
      simp at this
  · rw [hdata]
    intro h
    have hne : List.rdropWhile (fun d => d == '_')
      ((replaceRuns (fun c => !isSafeChar c) '_' false s.data).dropWhile
        (fun d => d == '_')) ≠ [] := by
      intro h0
      rw [h0] at h
      simp at h
    have := List.rdropWhile_last_not (fun d => d == '_') _ hne
    rw [List.getLast?_eq_getLast _ hne] at h
    simp only [Option.some.injEq] at h
    rw [h] at this
    simp at this

/-! ## The URL normaliser -/

theorem takeWhile_append_dropWhile_ne (l : List Char) :
    l.takeWhile (fun c => c != '/') ++ l.dropWhile (fun c => c != '/') = l :=
  List.takeWhile_append_dropWhile _ _

theorem not_mem_takeWhile_ne (l : List Char) : '/' ∉ l.takeWhile (fun c => c != '/') := by
  intro h
  have := List.mem_takeWhile_imp h
  simp at this

theorem takeWhile_ne_append (slug rest : List Char) (h : '/' ∉ slug) :
    (slug ++ rest).takeWhile (fun c => c != '/') = slug ++ rest.takeWhile (fun c => c != '/') := by
  induction slug with
  | nil => simp
  | cons a t ih =>
    have ha : a ≠ '/' := fun e => h (by simp [e])
    have ht : '/' ∉ t := fun e => h (by simp [e])
    simp [List.takeWhile_cons, ha, ih ht]

theorem dropWhile_ne_append (slug rest : List Char) (h : '/' ∉ slug) :
    (slug ++ rest).dropWhile (fun c => c != '/') = rest.dropWhile (fun c => c != '/') := by
  induction slug with
  | nil => simp
  | cons a t ih =>
    have ha : a ≠ '/' := fun e => h (by simp [e])
    have ht : '/' ∉ t := fun e => h (by simp [e])
    simp [List.dropWhile_cons, ha, ih ht]

theorem novelPathRe_iff (p : String) : novelPathRe p.data = true ↔ IsNovelRootPath p := by
  constructor
  · intro h
    unfold novelPathRe at h
    split at h
    · rename_i rest hp
      simp only [Bool.and_eq_true, Bool.or_eq_true, decide_eq_true_eq] at h
      refine ⟨rest.takeWhile (fun c => c != '/'), h.1, not_mem_takeWhile_ne rest, ?_⟩
      have hsplit := takeWhile_append_dropWhile_ne rest
      rcases h.2 with h2 | h2
      · left
        rw [h2, List.append_nil] at hsplit
        rw [hp, hsplit]
        rfl
      · right
        rw [h2] at hsplit
        rw [hp, List.append_assoc, hsplit]
        rfl
    · exact absurd h (by simp)
  · rintro ⟨slug, hne, hns, h | h⟩
    · rw [h]
      show novelPathRe ('/' :: 'n' :: 'o' :: 'v' :: 'e' :: 'l' :: '/' :: slug) = true
      simp only [novelPathRe]
      have h1 := takeWhile_ne_append slug [] hns
      have h2 := dropWhile_ne_append slug [] hns
      simp only [List.append_nil, List.takeWhile_nil, List.dropWhile_nil] at h1 h2
      simp [h1, h2, hne]
    · rw [h]
      show novelPathRe ('/' :: 'n' :: 'o' :: 'v' :: 'e' :: 'l' :: '/' :: (slug ++ ['/'])) = true
      simp only [novelPathRe]
      have h1 := takeWhile_ne_append slug ['/'] hns
      have h2 := dropWhile_ne_append slug ['/'] hns
      simp only [List.takeWhile_cons, List.dropWhile_cons, bne_self_eq_false,
        Bool.false_eq_true, if_false, List.append_nil] at h1 h2
      simp [h1, h2, hne]

/-- C4: `normalizeNovelUrl` succeeds exactly on the inputs that parse as an
absolute URL whose path is `/novel/<slug>` or `/novel/<slug>/` with a non-empty
slug without a slash, and throws on every other input; the paths `/novel/a/b/`,
`/novels/a/` and `/novel//` are rejected. -/
theorem normalizeNovelUrl_ok_iff :
    (∀ (parseUrl : String → Option Url) (input : String),
      ((∃ out, normalizeNovelUrl parseUrl input = .ok out) ↔
        ∃ u, parseUrl input = some u ∧ IsNovelRootPath u.pathname) ∧
      ((∃ e, normalizeNovelUrl parseUrl input = .error e) ↔
        ¬ ∃ u, parseUrl input = some u ∧ IsNovelRootPath u.pathname)) ∧
    novelPathRe "/novel/a/b/".data = false ∧ novelPathRe "/novels/a/".data = false ∧
    novelPathRe "/novel//".data = false ∧ novelPathRe "/novel/a".data = true ∧
    novelPathRe "/novel/a/".data = true := by
  refine ⟨?_, by decide, by decide, by decide, by decide, by decide⟩
  intro parseUrl input
  unfold normalizeNovelUrl
  cases hp : parseUrl input with
  | none => simp
  | some u =>
    by_cases hre : novelPathRe u.pathname.data = true
    · have hs := (novelPathRe_iff u.pathname).mp hre
      simp [hre, hs]
    · have hs : ¬ IsNovelRootPath u.pathname := fun h => hre ((novelPathRe_iff u.pathname).mpr h)
      simp [hre, hs]

theorem endsWithChar_append_slash (p : String) : endsWithChar '/' (p ++ "/") = true := by
  simp [endsWithChar, String.data_append]

theorem novelPathRe_normalizedUrl (u : Url) (h : novelPathRe u.pathname.data = true) :
    novelPathRe (normalizedUrl u).pathname.data = true := by
  unfold normalizedUrl
  by_cases hend : endsWithChar '/' u.pathname = true
  · simpa [hend, Url.clearHash, Url.clearSearch] using h
  · by_cases hop : u.opaquePath = true
    · simpa [hend, hop, Url.setPathname, Url.clearHash, Url.clearSearch] using h
    · simp only [hend, Bool.not_eq_true] at hop ⊢
      simp only [Bool.not_eq_true] at hend
      simp only [hend, hop, Url.setPathname, Url.clearHash, Url.clearSearch, Bool.not_false,
        if_true, Bool.false_eq_true, if_false]
      rw [novelPathRe_iff] at h ⊢
      obtain ⟨slug, hne, hns, hp | hp⟩ := h
      · exact ⟨slug, hne, hns, Or.inr (by simp [String.data_append, hp])⟩
      · exfalso
        have hlast : (u.pathname.data).getLast? = some '/' := by
          rw [hp]
          exact List.getLast?_concat _
        simp [endsWithChar, hlast] at hend

theorem normalizedUrl_idem (u : Url) : normalizedUrl (normalizedUrl u) = normalizedUrl u := by
  unfold normalizedUrl
  by_cases hend : endsWithChar '/' u.pathname = true
  · simp [hend, Url.clearHash, Url.clearSearch]
  · by_cases hop : u.opaquePath = true
    · simp [hend, hop, Url.setPathname, Url.clearHash, Url.clearSearch]
    · simp only [Bool.not_eq_true] at hop hend
      simp [hend, hop, Url.setPathname, Url.clearHash, Url.clearSearch,
        endsWithChar_append_slash]

/-- C3: `normalizeNovelUrl` is idempotent: when it succeeds on `x` with result
`out`, it succeeds on `out` with the same result.  The URL parser is a
parameter; it is assumed to read the serialisation of the URL object that
`normalizeNovelUrl` returns back into that object (the round trip of the
WHATWG parser and serialiser). -/
theorem normalizeNovelUrl_idempotent (parseUrl : String → Option Url)
    (hRoundTrip : ∀ x u, parseUrl x = some u → novelPathRe u.pathname.data = true →
      parseUrl (normalizedUrl u).href = some (normalizedUrl u))
    (x out : String) (h : normalizeNovelUrl parseUrl x = .ok out) :
    normalizeNovelUrl parseUrl out = .ok out := by
  unfold normalizeNovelUrl at h
  cases hp : parseUrl x with
  | none => simp [hp] at h
  | some u =>
    rw [hp] at h
    by_cases hre : novelPathRe u.pathname.data = true
    · simp only [hre, Bool.not_true, Bool.false_eq_true, if_false, Except.ok.injEq] at h
      subst h
      unfold normalizeNovelUrl
      rw [hRoundTrip x u hp hre]
      simp [novelPathRe_normalizedUrl u hre, normalizedUrl_idem]
    · simp [hre] at h

theorem scenarioUrls_roundTrip (x : String) (u : Url)
    (h : tableParse scenarioUrls x = some u) (_ : novelPathRe u.pathname.data = true) :
    tableParse scenarioUrls (normalizedUrl u).href = some (normalizedUrl u) := by
  simp only [tableParse, scenarioUrls, List.lookup] at h
  split at h
  · cases h; decide
  · split at h
    · cases h; decide
    · cases h

/-- The normaliser sends the scenario input to its canonical form, on which it
is the identity. -/
theorem normalizeNovelUrl_idempotent_witness :
    normalizeNovelUrl (tableParse scenarioUrls)
        "https://example.com/novel/test-series/?ref=x#frag" =
      .ok "https://example.com/novel/test-series/" ∧
    normalizeNovelUrl (tableParse scenarioUrls) "https://example.com/novel/test-series/" =
      .ok "https://example.com/novel/test-series/" :=
  ⟨rfl,
   normalizeNovelUrl_idempotent (tableParse scenarioUrls) scenarioUrls_roundTrip
     "https://example.com/novel/test-series/?ref=x#frag" _ rfl⟩

/-! ## The chapter list -/

theorem collectChapters_foldl (anchors : List Anchor) (acc : List Chapter) :
    anchors.foldl
        (fun chapters a =>
          match chapterOfAnchor a with
          | some ch => chapters ++ [ch]
          | none => chapters)
        acc =
      acc ++ entriesInDocumentOrder anchors := by
  induction anchors generalizing acc with
  | nil => simp [entriesInDocumentOrder]
  | cons a t ih =>
    rw [List.foldl_cons, ih]
    by_cases h : jsTrim a.text = ""
    · simp [chapterOfAnchor, entriesInDocumentOrder, h]
    · simp [chapterOfAnchor, entriesInDocumentOrder, h]

theorem collectChapters_eq (anchors : List Anchor) :
    collectChapters anchors = entriesInDocumentOrder anchors := by
  simpa [collectChapters] using collectChapters_foldl anchors []

theorem bookOfContainer_eq (ul : ChapterContainer) : bookOfContainer ul = groupOfContainer ul := by
  simp [bookOfContainer, groupOfContainer, collectChapters_eq]

theorem foldl_push_books (containers : List ChapterContainer) (acc : List Book) :
    containers.foldl (fun l ul => l ++ [bookOfContainer ul]) acc =
      acc ++ containers.map groupOfContainer := by
  induction containers generalizing acc with
  | nil => simp
  | cons ul t ih =>
    rw [List.foldl_cons, ih]
    simp [bookOfContainer_eq]

theorem fetchChapterListPage_chapterList (env : Env) (w w1 : World) (r : Except String Html)
    (h : fetchChapterListPage env w = (r, w1)) : w1.chapterList = w.chapterList := by
  unfold fetchChapterListPage at h
  simp only [World.log] at h
  split at h
  · cases h; rfl
  · split at h
    · cases h; rfl
    · cases h; rfl

/-- C7: for the document `getChapterList` loads, the group stored for every
`ul.list-chap` container holds the reverse of the container's chapter entries
in document order (the entries with empty visible text left out, each with its
title, URL and parsed number): the groups of the containers are appended to
`chapterList` in order, and the flat scan is the only other group, stored when
the list would be empty. -/
theorem getChapterList_reverses_entries (env : Env) (w w1 : World) (page : Html)
    (h : fetchChapterListPage env w = (.ok page, w1)) :
    (getChapterList env w).2.chapterList =
      (if w.chapterList ++ page.listChap.map groupOfContainer = [] then
        [{ title := "Default",
           chapters := (entriesInDocumentOrder page.chapterAnchors).reverse }]
      else w.chapterList ++ page.listChap.map groupOfContainer) ∧
    ∀ ul ∈ page.listChap,
      (groupOfContainer ul).chapters = (entriesInDocumentOrder ul.anchors).reverse ∧
      groupOfContainer ul ∈ (getChapterList env w).2.chapterList := by
  have hcl := fetchChapterListPage_chapterList env w w1 _ h
  have hmain : (getChapterList env w).2.chapterList =
      (if w.chapterList ++ page.listChap.map groupOfContainer = [] then
        [{ title := "Default",
           chapters := (entriesInDocumentOrder page.chapterAnchors).reverse }]
      else w.chapterList ++ page.listChap.map groupOfContainer) := by
    unfold getChapterList
    rw [h]
    simp only [parseChapterList, foldl_push_books, hcl, collectChapters_eq,
      List.length_eq_zero]
    by_cases hnil : w.chapterList ++ page.listChap.map groupOfContainer = []
    · simp [hnil]
    · simp [hnil]
  refine ⟨hmain, fun ul hul => ⟨rfl, ?_⟩⟩
  rw [hmain]
  have hmem : groupOfContainer ul ∈ w.chapterList ++ page.listChap.map groupOfContainer :=
    List.mem_append_right _ (List.mem_map_of_mem _ hul)
  rw [if_neg (List.ne_nil_of_mem hmem)]
  exact hmem

/-- The scenario of the specification: a container listing `Chapter 2` before
`Chapter 1` gives the chapters numbered 1 and 2, in this order. -/
theorem getChapterList_reverses_entries_witness :
    fetchChapterListPage scenarioListEnv scenarioStart =
      (.ok scenarioChapterPage,
        { scenarioStart with
          console := ["Fetching chapters...", "https://example.com/novel/test-series/",
            "https://example.com/novel/test-series/ajax/chapters"] }) ∧
    (getChapterList scenarioListEnv scenarioStart).2.chapterList =
      [ { title := "Default",
          chapters :=
            [ { title := "Chapter 1", url := some "https://example.com/c1", number := .fin 1 },
              { title := "Chapter 2", url := some "https://example.com/c2", number := .fin 2 } ] } ] :=
  ⟨rfl,
   ((getChapterList_reverses_entries scenarioListEnv scenarioStart _ scenarioChapterPage
      rfl).1).trans (by decide)⟩

/-- C2 (the code departs from the claim): the test `!chapterList.length` of
`getChapterList` counts groups, and the flat scan always stores its group, so
the error `No chapters found` is never thrown; on a document without any
chapter entry `getChapterList` returns normally with one empty group. -/
theorem getChapterList_empty_document_returns :
    (∀ (page : Html) (chapterList : List Book), (parseChapterList page chapterList).1 = none) ∧
    getChapterList emptyListEnv scenarioStart =
      (none,
        { scenarioStart with
          chapterList := [{ title := "Default", chapters := [] }]
          console := ["Fetching chapters...", "https://example.com/novel/test-series/",
            "https://example.com/novel/test-series/ajax/chapters"] }) := by
  refine ⟨?_, rfl⟩
  intro page chapterList
  unfold parseChapterList
  simp only
  split
  · simp
  · rename_i h
    simp [h]

/-! ## Paths -/

theorem splitOnChar_ne_nil (sep : Char) (l : List Char) : splitOnChar sep l ≠ [] := by
  cases l with
  | nil => simp [splitOnChar]
  | cons c cs =>
    simp only [splitOnChar]
    split
    · simp
    · split <;> simp

theorem splitOnChar_append_sep (sep : Char) (l₁ l₂ : List Char) :
    splitOnChar sep (l₁ ++ sep :: l₂) = splitOnChar sep l₁ ++ splitOnChar sep l₂ := by
  induction l₁ with
  | nil => simp [splitOnChar]
  | cons c t ih =>
    by_cases hc : c = sep
    · simp only [List.cons_append, splitOnChar, hc, if_true, List.append_eq]
      rw [ih]
    · simp only [List.cons_append, splitOnChar, hc, if_false, List.append_eq]
      rw [ih]
      cases hs : splitOnChar sep t with
      | nil => exact absurd hs (splitOnChar_ne_nil sep t)
      | cons seg segs => simp

theorem splitOnChar_of_not_mem (sep : Char) (l : List Char) (h : sep ∉ l) :
    splitOnChar sep l = [l] := by
  induction l with
  | nil => simp [splitOnChar]
  | cons c t ih =>
    have hc : c ≠ sep := fun e => h (by simp [e])
    have ht : sep ∉ t := fun e => h (by simp [e])
    simp [splitOnChar, hc, ih ht]

theorem not_mem_of_mem_splitOnChar (sep : Char) (l seg : List Char)
    (h : seg ∈ splitOnChar sep l) : sep ∉ seg := by
  induction l generalizing seg with
  | nil =>
    simp only [splitOnChar, List.mem_singleton] at h
    simp [h]
  | cons c t ih =>
    simp only [splitOnChar] at h
    by_cases hc : c = sep
    · simp only [hc, if_true, List.mem_cons] at h
      rcases h with rfl | h
      · simp
      · exact ih seg h
    · simp only [hc, if_false] at h
      cases hs : splitOnChar sep t with
      | nil => exact absurd hs (splitOnChar_ne_nil sep t)
      | cons s ss =>
        rw [hs] at h ih
        simp only [List.mem_cons] at h
        rcases h with rfl | h
        · have := ih s (by simp)
          intro hmem
          simp only [List.mem_cons] at hmem
          rcases hmem with e | e
          · exact hc e.symm
          · exact this e
        · exact ih seg (by simp [h])

theorem normalizeStep_plain (stack : List (List Char)) (seg : List Char)
    (h : PlainSegment seg) : normalizeStep false stack seg = seg :: stack := by
  obtain ⟨h1, _, h3, h4⟩ := h
  simp [normalizeStep, h1, h3, h4]

theorem normalizeStep_nil (b : Bool) (stack : List (List Char)) :
    normalizeStep b stack [] = stack := by
  simp [normalizeStep]

theorem normalizeStep_keeps_plain (stack : List (List Char)) (seg : List Char)
    (hstack : ∀ s ∈ stack, PlainSegment s) (hseg : '/' ∉ seg) :
    ∀ s ∈ normalizeStep false stack seg, PlainSegment s := by
  unfold normalizeStep
  by_cases h1 : seg = [] ∨ seg = ['.']
  · simpa [h1] using hstack
  · rw [if_neg h1]
    by_cases h2 : seg = ['.', '.']
    · rw [if_pos h2]
      cases stack with
      | nil => simp
      | cons top rest =>
        simp only [Bool.false_eq_true, if_false]
        split
        · exact hstack
        · exact fun s hs => hstack s (List.mem_cons_of_mem _ hs)
    · rw [if_neg h2]
      intro s hs
      simp only [List.mem_cons] at hs
      rcases hs with rfl | hs
      · exact ⟨fun e => h1 (Or.inl e), hseg, fun e => h1 (Or.inr e), h2⟩
      · exact hstack s hs

theorem foldl_normalizeStep_keeps_plain (segs : List (List Char)) (stack : List (List Char))
    (hstack : ∀ s ∈ stack, PlainSegment s) (hsegs : ∀ s ∈ segs, '/' ∉ s) :
    ∀ s ∈ segs.foldl (normalizeStep false) stack, PlainSegment s := by
  induction segs generalizing stack with
  | nil => simpa using hstack
  | cons a t ih =>
    rw [List.foldl_cons]
    exact ih _ (normalizeStep_keeps_plain stack a hstack (hsegs a (by simp)))
      (fun s hs => hsegs s (List.mem_cons_of_mem _ hs))

theorem normalizeSegments_plain (path : List Char) :
    ∀ s ∈ normalizeSegments false path, PlainSegment s := by
  intro s hs
  rw [normalizeSegments, List.mem_reverse] at hs
  exact foldl_normalizeStep_keeps_plain _ [] (by simp)
    (fun seg hseg => not_mem_of_mem_splitOnChar '/' path seg hseg) s hs

theorem foldl_normalizeStep_plain (segs stack : List (List Char))
    (h : ∀ s ∈ segs, PlainSegment s) :
    segs.foldl (normalizeStep false) stack = segs.reverse ++ stack := by
  induction segs generalizing stack with
  | nil => simp
  | cons a t ih =>
    rw [List.foldl_cons, normalizeStep_plain stack a (h a (by simp)),
      ih _ (fun s hs => h s (List.mem_cons_of_mem _ hs))]
    simp

theorem intercalate_cons_cons (sep a b : List Char) (t : List (List Char)) :
    List.intercalate sep (a :: b :: t) = a ++ sep ++ List.intercalate sep (b :: t) := by
  simp [List.intercalate, List.intersperse]

theorem splitOnChar_intercalate (segs : List (List Char)) (hne : segs ≠ [])
    (h : ∀ s ∈ segs, '/' ∉ s) : splitOnChar '/' (List.intercalate ['/'] segs) = segs := by
  induction segs with
  | nil => exact absurd rfl hne
  | cons a t ih =>
    cases t with
    | nil =>
      simpa [List.intercalate, List.intersperse] using
        splitOnChar_of_not_mem '/' a (h a (by simp))
    | cons b t =>
      rw [intercalate_cons_cons, List.append_assoc, List.singleton_append,
        splitOnChar_append_sep, splitOnChar_of_not_mem '/' a (h a (by simp)),
        ih (by simp) (fun s hs => h s (List.mem_cons_of_mem _ hs))]
      simp

theorem normalizeSegments_append_slash (b : Bool) (l : List Char) :
    normalizeSegments b (l ++ ['/']) = normalizeSegments b l := by
  simp [normalizeSegments, splitOnChar_append_sep, splitOnChar, List.foldl_append,
    normalizeStep_nil]

theorem normalizeSegments_slash_cons (b : Bool) (l : List Char) :
    normalizeSegments b ('/' :: l) = normalizeSegments b l := by
  simp [normalizeSegments, splitOnChar, normalizeStep_nil]

theorem normalizeSegments_intercalate (segs : List (List Char))
    (h : ∀ s ∈ segs, PlainSegment s) :
    normalizeSegments false (List.intercalate ['/'] segs) = segs := by
  by_cases hne : segs = []
  · subst hne
    simp [normalizeSegments, List.intercalate, splitOnChar, normalizeStep_nil]
  · rw [normalizeSegments, splitOnChar_intercalate segs hne (fun s hs => (h s hs).2.1),
      foldl_normalizeStep_plain segs [] h]
    simp

theorem normalizeSegments_idem (l : List Char) :
    normalizeSegments false (normalizeString false l) = normalizeSegments false l :=
  normalizeSegments_intercalate _ (normalizeSegments_plain l)

/-- Normalising an absolute path does not change the segments the resolver
keeps. -/
theorem normalizeSegments_pathNormalize (q : List Char) (habs : q.head? = some '/') :
    normalizeSegments false (pathNormalize q ++ ['/']) = normalizeSegments false q := by
  have hq : q ≠ [] := by
    intro e
    simp [e] at habs
  rw [normalizeSegments_append_slash]
  unfold pathNormalize
  simp only [hq, if_false, habs, beq_self_eq_true, Bool.not_true, if_true]
  by_cases hp : normalizeString false q = []
  · simp only [hp, if_true]
    have h0 := normalizeSegments_idem q
    rw [hp] at h0
    rw [← h0]
    simp [normalizeSegments, splitOnChar, normalizeStep_nil]
  · simp only [hp, if_false]
    rw [normalizeSegments_slash_cons]
    split
    · rw [normalizeSegments_append_slash, normalizeSegments_idem]
    · rw [normalizeSegments_idem]

theorem pathNormalize_head (q : List Char) (habs : q.head? = some '/') :
    (pathNormalize q).head? = some '/' := by
  have hq : q ≠ [] := by
    intro e
    simp [e] at habs
  unfold pathNormalize
  simp only [hq, if_false, habs, beq_self_eq_true, Bool.not_true, if_true]
  split <;> simp

theorem pathResolve_absolute (cwd p : String) (habs : p.data.head? = some '/') :
    pathResolve cwd p = String.mk ('/' :: normalizeString false (p.data ++ ['/'])) := by
  have hp : p.data ≠ [] := by
    intro e
    simp [e] at habs
  simp [pathResolve, habs, hp]

/-- The operating system reads `path.join(a, b)` and the concatenation
`a/b` as the same path, for an absolute `a` and a non-empty `b`. -/
theorem pathResolve_pathJoin (cwd a b : String) (ha : a.data.head? = some '/')
    (hb : b.data ≠ []) :
    pathResolve cwd (pathJoin a b) = pathResolve cwd (a ++ "/" ++ b) := by
  have hane : a.data ≠ [] := by
    intro e
    simp [e] at ha
  have hjoin : pathJoin a b = String.mk (pathNormalize (a.data ++ '/' :: b.data)) := by
    simp [pathJoin, List.filter, hane, hb, List.intercalate, List.intersperse]
  have hcat : (a ++ "/" ++ b).data = a.data ++ '/' :: b.data := by
    simp [String.data_append]
  have hq : (a.data ++ '/' :: b.data).head? = some '/' := by
    cases hd : a.data with
    | nil => exact absurd hd hane
    | cons c t =>
      rw [hd] at ha
      simpa using ha
  rw [pathResolve_absolute cwd (a ++ "/" ++ b) (by rw [hcat]; exact hq), hjoin,
    pathResolve_absolute cwd (String.mk (pathNormalize (a.data ++ '/' :: b.data)))
      (pathNormalize_head _ hq), hcat]
  simp only [normalizeString, normalizeSegments_pathNormalize _ hq,
    normalizeSegments_append_slash]

theorem pathJoin_head (a b : String) (ha : a.data.head? = some '/') :
    (pathJoin a b).data.head? = some '/' := by
  have hane : a.data ≠ [] := by
    intro e
    simp [e] at ha
  obtain ⟨c, t, hd⟩ : ∃ c t, a.data = c :: t := List.exists_cons_of_ne_nil hane
  have hc : c = '/' := by
    rw [hd] at ha
    simpa using ha
  subst hc
  by_cases hb : b.data = []
  · have : pathJoin a b = String.mk (pathNormalize a.data) := by
      simp [pathJoin, List.filter, hane, hb, List.intercalate, List.intersperse]
    rw [this]
    exact pathNormalize_head _ ha
  · have : pathJoin a b = String.mk (pathNormalize (a.data ++ '/' :: b.data)) := by
      simp [pathJoin, List.filter, hane, hb, List.intercalate, List.intersperse]
    rw [this]
    exact pathNormalize_head _ (by rw [hd]; rfl)

theorem OUT_DIR_head (cwd : String) : (OUT_DIR cwd).data.head? = some '/' := by
  simp [OUT_DIR, pathResolve]

/-! ## The packager -/

theorem existsSync_congr (cwd : String) (fs : FileSystem) (p q : String)
    (h : pathResolve cwd p = pathResolve cwd q) : existsSync cwd fs p = existsSync cwd fs q := by
  simp [existsSync, fsLookup, h]

theorem seriesFolder_head (cwd series : String) (n : JsNum) :
    (getChapterOutPath cwd series n).seriesFolder.data.head? = some '/' :=
  pathJoin_head _ _ (OUT_DIR_head cwd)

theorem existsSync_fullPath (cwd series : String) (n : JsNum) (fs : FileSystem) :
    existsSync cwd fs (getChapterOutPath cwd series n).fullPath =
      existsSync cwd fs
        ((getChapterOutPath cwd series n).seriesFolder ++ "/" ++
          (getChapterOutPath cwd series n).fileBase ++ ".epub") := by
  apply existsSync_congr
  have h := pathResolve_pathJoin cwd (getChapterOutPath cwd series n).seriesFolder
    ((getChapterOutPath cwd series n).fileBase ++ ".epub") (seriesFolder_head cwd series n)
    (by simp [String.data_append])
  rw [String.append_assoc]
  exact h

theorem writeFile_exists (cwd : String) (fs fs1 : FileSystem) (p data : String)
    (h : writeFile cwd fs p data = .ok fs1) : existsSync cwd fs1 p = true := by
  unfold writeFile at h
  simp only at h
  split at h
  · cases h
  · split at h
    · cases h
    · cases h
      simp only [existsSync, fsLookup]
      split
      · rfl
      · simp [List.lookup]

theorem exampleEnv_writerContract (httpGet : Option String → Except String Html)
    (httpPost : String → Except String (Nat × Html)) :
    WriterContract (exampleEnv httpGet httpPost) := by
  intro fs doc folder fileBase fs1 h
  simp only [exampleEnv] at h ⊢
  exact writeFile_exists "/app" fs fs1 (folder ++ "/" ++ fileBase ++ ".epub") "epub" h

/-- C6: after a successful call of `writeChapterEpub`, a second call with the
same arguments finds the artifact at `getChapterOutPath(series, number).fullPath`,
returns early (its only effect is the console line `Skipping`), and leaves the
disk exactly as it was.  The e-book writer is a parameter, with the contract
that a successful `writeEPUB(folder, fileBase)` leaves `<folder>/<fileBase>.epub`
on the disk. -/
theorem writeChapterEpub_twice (env : Env) (hWriter : WriterContract env)
    (seriesMeta : Metadata) (chapter : Chapter) (html : String) (w w1 : World)
    (h : writeChapterEpub env seriesMeta chapter html w = (none, w1)) :
    existsSync env.cwd w1.fs
        (getChapterOutPath env.cwd seriesMeta.series chapter.number).fullPath = true ∧
    writeChapterEpub env seriesMeta chapter html w1 =
      (none, w1.log ("• Skipping c" ++ pad3 chapter.number ++ " (already exists)")) ∧
    (writeChapterEpub env seriesMeta chapter html w1).2.fs = w1.fs := by
  have hex : existsSync env.cwd w1.fs
      (getChapterOutPath env.cwd seriesMeta.series chapter.number).fullPath = true := by
    unfold writeChapterEpub at h
    simp only at h
    split at h
    · rename_i hthere
      cases h
      exact hthere
    · split at h
      · cases h
      · split at h
        · cases h
        · rename_i fs1 _ fs2 hw
          cases h
          rw [existsSync_fullPath]
          exact hWriter _ _ _ _ _ hw
  have hsecond : writeChapterEpub env seriesMeta chapter html w1 =
      (none, w1.log ("• Skipping c" ++ pad3 chapter.number ++ " (already exists)")) := by
    unfold writeChapterEpub
    simp only [hex, if_true]
  exact ⟨hex, hsecond, by rw [hsecond]; rfl⟩

/-- Chapter 7 of `My Novel` packaged twice on an empty disk: the first call
writes `/app/books/My_Novel/My Novel - c007.epub`, the second one finds it. -/
theorem writeChapterEpub_twice_witness :
    (writeChapterEpub scenarioListEnv myNovelMeta chapterSeven "<h1>7</h1>" initialWorld).2.fs =
      [ ("/app/books/My_Novel/My Novel - c007.epub", .file "epub"), ("/app", .dir),
        ("/app/books", .dir), ("/app/books/My_Novel", .dir) ] ∧
    (writeChapterEpub scenarioListEnv myNovelMeta chapterSeven "<h1>7</h1>"
        (writeChapterEpub scenarioListEnv myNovelMeta chapterSeven "<h1>7</h1>"
          initialWorld).2).2.fs =
      (writeChapterEpub scenarioListEnv myNovelMeta chapterSeven "<h1>7</h1>" initialWorld).2.fs :=
  ⟨by decide,
   (writeChapterEpub_twice scenarioListEnv (exampleEnv_writerContract _ _) myNovelMeta
      chapterSeven "<h1>7</h1>" initialWorld _ rfl).2.2⟩

/-! ## The artifact path -/

theorem numberToString_of_lt (n : Nat) (h : n < 2 ^ 53) :
    numberToString (.fin n) = Nat.toDigits 10 n := by
  simp only [numberToString]
  rw [if_pos h]

theorem pad3_of_lt (n : Nat) (h : n < 2 ^ 53) : pad3 (orZero (.fin n)) = decimalPad3 n := by
  have ho : orZero (.fin n) = .fin n := by
    cases n <;> rfl
  rw [ho]
  unfold pad3 decimalPad3 padStart
  rw [numberToString_of_lt n h]

theorem digitChar_ne_slash : ∀ d < 10, Nat.digitChar d ≠ '/' := by
  decide

theorem toDigitsCore_no_slash (fuel n : Nat) (acc : List Char) (hacc : '/' ∉ acc) :
    '/' ∉ Nat.toDigitsCore 10 fuel n acc := by
  induction fuel generalizing n acc with
  | zero => simpa [Nat.toDigitsCore] using hacc
  | succ f ih =>
    simp only [Nat.toDigitsCore]
    have hcons : '/' ∉ Nat.digitChar (n % 10) :: acc := by
      intro hm
      simp only [List.mem_cons] at hm
      rcases hm with e | e
      · exact digitChar_ne_slash _ (Nat.mod_lt n (by decide)) e.symm
      · exact hacc e
    split
    · exact hcons
    · exact ih _ _ hcons

theorem decimalPad3_no_slash (n : Nat) : '/' ∉ (decimalPad3 n).data := by
  simp only [decimalPad3, List.mem_append, List.mem_replicate, not_or]
  refine ⟨fun h => absurd h.2 (by decide), ?_⟩
  exact toDigitsCore_no_slash _ _ [] (by simp)

theorem intercalate_append_singleton (N : List (List Char)) (seg : List Char) (hne : N ≠ []) :
    List.intercalate ['/'] (N ++ [seg]) = List.intercalate ['/'] N ++ '/' :: seg := by
  induction N with
  | nil => exact absurd rfl hne
  | cons a t ih =>
    cases t with
    | nil => simp [List.intercalate, List.intersperse]
    | cons b t =>
      rw [List.cons_append, List.cons_append, intercalate_cons_cons, ← List.cons_append,
        ih (by simp), intercalate_cons_cons]
      simp

theorem pathJoin_plain (a b : String) (ha : NormalAbsolute a) (hb : PlainSegment b.data) :
    pathJoin a b = a ++ "/" ++ b ∧ NormalAbsolute (a ++ "/" ++ b) := by
  obtain ⟨N, hN, hplain, hdata⟩ := ha
  have hane : a.data ≠ [] := by simp [hdata]
  have hjoin : pathJoin a b = String.mk (pathNormalize (a.data ++ '/' :: b.data)) := by
    simp [pathJoin, List.filter, hane, hb.1, List.intercalate, List.intersperse]
  have hall : ∀ s ∈ N ++ [b.data], PlainSegment s := by
    intro s hs
    rcases List.mem_append.mp hs with h | h
    · exact hplain s h
    · simp only [List.mem_singleton] at h
      exact h ▸ hb
  have hq : a.data ++ '/' :: b.data = '/' :: List.intercalate ['/'] (N ++ [b.data]) := by
    rw [hdata, intercalate_append_singleton N _ hN]
    rfl
  have hcat : (a ++ "/" ++ b).data = '/' :: List.intercalate ['/'] (N ++ [b.data]) := by
    rw [← hq]
    simp [String.data_append]
  have hlast : ('/' :: List.intercalate ['/'] (N ++ [b.data])).getLast? ≠ some '/' := by
    rw [intercalate_append_singleton N _ hN]
    obtain ⟨c, t, hct⟩ : ∃ c t, b.data = t ++ [c] := by
      rcases List.eq_nil_or_concat b.data with h | ⟨t, c, h⟩
      · exact absurd h hb.1
      · exact ⟨c, t, by rw [h, List.concat_eq_append]⟩
    have hc : c ≠ '/' := by
      intro e
      exact hb.2.1 (by rw [hct, e]; simp)
    have : '/' :: (List.intercalate ['/'] N ++ '/' :: b.data) =
        ('/' :: (List.intercalate ['/'] N ++ '/' :: t)) ++ [c] := by
      rw [hct]
      simp
    rw [this, List.getLast?_concat]
    simpa using hc
  have hnorm : pathNormalize ('/' :: List.intercalate ['/'] (N ++ [b.data])) =
      '/' :: List.intercalate ['/'] (N ++ [b.data]) := by
    have hsegs : normalizeSegments false ('/' :: List.intercalate ['/'] (N ++ [b.data])) =
        N ++ [b.data] := by
      rw [normalizeSegments_slash_cons, normalizeSegments_intercalate _ hall]
    have hne2 : List.intercalate ['/'] (N ++ [b.data]) ≠ [] := by
      rw [intercalate_append_singleton N _ hN]
      simp
    have htr : (('/' :: List.intercalate ['/'] (N ++ [b.data])).getLast? == some '/') = false := by
      simpa using hlast
    unfold pathNormalize
    simp only [List.cons_ne_nil, if_false, List.head?_cons, beq_self_eq_true, Bool.not_true,
      normalizeString, hsegs, hne2, htr, Bool.false_eq_true, if_true]
  refine ⟨?_, N ++ [b.data], by simp, hall, hcat⟩
  apply String.ext
  rw [hjoin, hcat, hq, hnorm]

theorem OUT_DIR_normal (cwd : String) : NormalAbsolute (OUT_DIR cwd) := by
  refine ⟨normalizeSegments false (cwd.data ++ '/' :: "books/".data), ?_,
    normalizeSegments_plain _, ?_⟩
  · have h : normalizeSegments false (cwd.data ++ '/' :: "books/".data) =
        (normalizeStep false ((splitOnChar '/' cwd.data).foldl (normalizeStep false) [])
          "books".data).reverse := by
      have e : cwd.data ++ '/' :: "books/".data = (cwd.data ++ '/' :: "books".data) ++ ['/'] := by
        simp
      rw [e, normalizeSegments_append_slash, normalizeSegments, splitOnChar_append_sep,
        splitOnChar_of_not_mem '/' "books".data (by decide), List.foldl_append]
      rfl
    rw [h, normalizeStep_plain _ _ (by refine ⟨?_, ?_, ?_, ?_⟩ <;> decide)]
    simp
  · simp [OUT_DIR, pathResolve, normalizeString]

/-- C5 as amended: for a chapter number below `2^53`, `getChapterOutPath(s, n)`
returns the folder `path.join(OUT_DIR, safe(s))`, the file base
`s ++ " - c" ++ (n in decimal, left-padded to 3 digits)` and the path
`path.join(folder, fileBase ++ ".epub")`; when `s` holds no slash and `safe(s)`
is a plain segment, these are the strings `OUT_DIR/safe(s)` and
`OUT_DIR/safe(s)/fileBase.epub`. -/
theorem getChapterOutPath_spec (cwd s : String) (n : Nat) (hn : n < 2 ^ 53) :
    getChapterOutPath cwd s (.fin n) =
      { seriesFolder := pathJoin (OUT_DIR cwd) (safe s)
        fileBase := s ++ " - c" ++ decimalPad3 n
        fullPath := pathJoin (pathJoin (OUT_DIR cwd) (safe s))
          (s ++ " - c" ++ decimalPad3 n ++ ".epub") } ∧
    3 ≤ (decimalPad3 n).data.length ∧
    ('/' ∉ s.data → PlainSegment (safe s).data →
      (getChapterOutPath cwd s (.fin n)).seriesFolder = OUT_DIR cwd ++ "/" ++ safe s ∧
      (getChapterOutPath cwd s (.fin n)).fullPath =
        OUT_DIR cwd ++ "/" ++ safe s ++ "/" ++ (s ++ " - c" ++ decimalPad3 n ++ ".epub")) := by
  have hmain : getChapterOutPath cwd s (.fin n) =
      { seriesFolder := pathJoin (OUT_DIR cwd) (safe s)
        fileBase := s ++ " - c" ++ decimalPad3 n
        fullPath := pathJoin (pathJoin (OUT_DIR cwd) (safe s))
          (s ++ " - c" ++ decimalPad3 n ++ ".epub") } := by
    simp only [getChapterOutPath, pad3_of_lt n hn]
  refine ⟨hmain, ?_, ?_⟩
  · simp only [decimalPad3, List.length_append, List.length_replicate]
    omega
  · intro hs hsafe
    rw [hmain]
    obtain ⟨h1, hnormal⟩ := pathJoin_plain (OUT_DIR cwd) (safe s) (OUT_DIR_normal cwd) hsafe
    have hfile : PlainSegment (s ++ " - c" ++ decimalPad3 n ++ ".epub").data := by
      have hlen : 5 ≤ (s ++ " - c" ++ decimalPad3 n ++ ".epub").data.length := by
        simp only [String.data_append, List.length_append, List.length_cons, List.length_nil]
        omega
      refine ⟨?_, ?_, ?_, ?_⟩
      · intro e
        rw [e] at hlen
        simp at hlen
      · simp only [String.data_append, List.mem_append, not_or]
        exact ⟨⟨⟨hs, by decide⟩, decimalPad3_no_slash n⟩, by decide⟩
      · intro e
        rw [e] at hlen
        simp at hlen
      · intro e
        rw [e] at hlen
        simp at hlen
    refine ⟨h1, ?_⟩
    simp only [h1]
    exact (pathJoin_plain _ _ hnormal hfile).1

/-- The example of the specification: series `My Novel`, chapter 7, in a
process started in `/app`. -/
theorem getChapterOutPath_spec_witness :
    getChapterOutPath "/app" "My Novel" (.fin 7) =
      { seriesFolder := "/app/books/My_Novel"
        fileBase := "My Novel - c007"
        fullPath := "/app/books/My_Novel/My Novel - c007.epub" } :=
  (getChapterOutPath_spec "/app" "My Novel" 7 (by decide)).1.trans (by decide)

/-- C5 as stated fails on a large chapter number: `String(1e21)` is `1e+21`,
not the decimal digits of the number. -/
theorem getChapterOutPath_exponent_form :
    (getChapterOutPath "/app" "My Novel" (.fin (10 ^ 21))).fileBase = "My Novel - c1e+21" ∧
    (getChapterOutPath "/app" "My Novel" (.fin (10 ^ 21))).fileBase ≠
      "My Novel" ++ " - c" ++ decimalPad3 (10 ^ 21) := by
  constructor <;> decide

/-! ## The per-novel runner -/

theorem processChapters_append (env : Env) (pre rest : List Chapter) (w : World) :
    processChapters env (pre ++ rest) w =
      match processChapters env pre w with
      | (some e, w1) => (some e, w1)
      | (none, w1) => processChapters env rest w1 := by
  induction pre generalizing w with
  | nil => simp [processChapters]
  | cons ch t ih =>
    simp only [List.cons_append, processChapters]
    split
    · exact ih _
    · split
      · rfl
      · split
        · rfl
        · exact ih _

theorem processGroups_append (env : Env) (before rest : List Book) (w : World) :
    processGroups env (before ++ rest) w =
      match processGroups env before w with
      | (some e, w1) => (some e, w1)
      | (none, w1) => processGroups env rest w1 := by
  induction before generalizing w with
  | nil => simp [processGroups]
  | cons g t ih =>
    simp only [List.cons_append, processGroups]
    split
    · rfl
    · exact ih _

theorem processChapters_fetch_failure (env : Env) (ch : Chapter) (post : List Chapter)
    (w : World) (e : String)
    (hMissing : existsSync env.cwd w.fs
      (getChapterOutPath env.cwd w.metadata.series ch.number).fullPath = false)
    (hFetch : env.httpGet ch.url = .error e) :
    processChapters env (ch :: post) w =
      (some e, w.log ("Fetching chapter: " ++ ch.url.getD "undefined")) := by
  simp [processChapters, hMissing, getChapterHtml, hFetch]

/-- C1 as amended: when the content of a chapter whose artifact is not on the
disk cannot be fetched, `processNovel` fails with the error of the fetch; the
groups and chapters before it have been processed, and the state is left as it
was when the fetch failed, so no later chapter of the novel is checked, fetched
or packaged. -/
theorem processNovel_fetch_failure (env : Env) (novelUrl : String) (w w1 w2 w3 w4 : World)
    (before after : List Book) (groupTitle : String) (pre post : List Chapter)
    (ch : Chapter) (e : String)
    (hMeta : getMetadata env
      ((resetPerNovel novelUrl w).log ("\n=== Processing novel: " ++ novelUrl ++ " ===")) =
        (none, w1))
    (hList : getChapterList env w1 = (none, w2))
    (hGroups : w2.chapterList =
      before ++ { title := groupTitle, chapters := pre ++ ch :: post } :: after)
    (hBefore : processGroups env before w2 = (none, w3))
    (hPre : processChapters env pre (w3.log ("\nGroup: " ++ groupTitle)) = (none, w4))
    (hMissing : existsSync env.cwd w4.fs
      (getChapterOutPath env.cwd w4.metadata.series ch.number).fullPath = false)
    (hFetch : env.httpGet ch.url = .error e) :
    processNovel env novelUrl w =
      (some e, w4.log ("Fetching chapter: " ++ ch.url.getD "undefined")) := by
  unfold processNovel
  simp only [hMeta, hList, hGroups]
  rw [processGroups_append, hBefore]
  simp only [processGroups]
  rw [processChapters_append, hPre]
  simp only [processChapters_fetch_failure env ch post w4 e hMissing hFetch]

/-- Three chapters, the content of the second one cannot be fetched: chapter 1
is packaged, `processNovel` fails with the error of the fetch, and chapter 3 is
neither fetched nor packaged. -/
theorem processNovel_fetch_failure_witness :
    (processNovel secondChapterFailsEnv "https://example.com/novel/test-series/"
      initialWorld).1 = some "timeout" :=
  congrArg Prod.fst
    (processNovel_fetch_failure secondChapterFailsEnv "https://example.com/novel/test-series/"
      initialWorld _ _ _ _ [] [] "Volume 1"
      [{ title := "Chapter 1", url := some "https://example.com/c1", number := .fin 1 }]
      [{ title := "Chapter 3", url := some "https://example.com/c3", number := .fin 3 }]
      { title := "Chapter 2", url := some "https://example.com/c2", number := .fin 2 } "timeout"
      rfl rfl rfl rfl rfl rfl rfl)

/-- C1 as stated fails: with three chapters of which the second cannot be
fetched, `processNovel` fails, and the third chapter, whose content can be
fetched, is neither fetched nor packaged. -/
theorem processNovel_fetch_failure_not_isolated :
    (processNovel secondChapterFailsEnv "https://example.com/novel/test-series/"
      initialWorld).1 = some "timeout" ∧
    (∃ page, secondChapterFailsEnv.httpGet (some "https://example.com/c3") = .ok page) ∧
    "Fetching chapter: https://example.com/c3" ∉
      (processNovel secondChapterFailsEnv "https://example.com/novel/test-series/"
        initialWorld).2.console ∧
    existsSync "/app"
      (processNovel secondChapterFailsEnv "https://example.com/novel/test-series/"
        initialWorld).2.fs "/app/books/My_Novel/My Novel - c001.epub" = true ∧
    existsSync "/app"
      (processNovel secondChapterFailsEnv "https://example.com/novel/test-series/"
        initialWorld).2.fs "/app/books/My_Novel/My Novel - c003.epub" = false := by
  refine ⟨by decide, ⟨_, rfl⟩, by decide, by decide, by decide⟩

/-! ## The job runner -/

theorem runNovels_spec {σ : Type} (proc : String → σ → Option String × σ)
    (logError : String → σ → σ) (urls calls : List String) (st : σ) :
    (runNovels proc logError urls calls st).1 = none ∧
    (runNovels proc logError urls calls st).2.1 = calls ++ urls := by
  induction urls generalizing calls st with
  | nil => simp [runNovels]
  | cons url rest ih =>
    simp only [runNovels]
    split
    · have := ih (calls ++ [url]) ‹_›
      simpa using this
    · have := ih (calls ++ [url]) (logError ("! Failed for " ++ url ++ ": " ++ ‹String›) ‹_›)
      simpa using this

/-- C8 as amended: when the requested URLs have been read and the output root
has been created, `main` hands every URL to the per-novel runner exactly once,
in list order, whatever the runner does on each of them (success or error, with
any effect on the state), and `main` completes without error. -/
theorem mainWith_runs_every_url (env : Env) (proc : String → World → Option String × World)
    (w : World) (urls : List String) (fs1 : FileSystem)
    (hUrls : getRequestedNovelUrls env w.fs = .ok urls)
    (hDir : mkdirRecursive env.cwd w.fs (OUT_DIR env.cwd) = .ok fs1) :
    (mainWith env proc w).1 = none ∧ (mainWith env proc w).2.1 = urls := by
  unfold mainWith
  simp only [hUrls, hDir]
  simpa using runNovels_spec proc (fun line st => st.log line) urls [] { w with fs := fs1 }

/-- Two requested novels and a runner that throws on every novel: both URLs are
handed to the runner, in order, and `main` completes. -/
theorem mainWith_runs_every_url_witness :
    (mainWith twoNovelsEnv (fun _ st => (some "boom", st)) initialWorld).1 = none ∧
    (mainWith twoNovelsEnv (fun _ st => (some "boom", st)) initialWorld).2.1 =
      ["https://example.com/novel/a/", "https://example.com/novel/b/"] :=
  mainWith_runs_every_url twoNovelsEnv (fun _ st => (some "boom", st)) initialWorld
    ["https://example.com/novel/a/", "https://example.com/novel/b/"]
    [("/app", .dir), ("/app/books", .dir)] rfl rfl

/-- C8 as stated fails: when `books` is a regular file, `fsp.mkdir(OUT_DIR)`
throws, so `main` fails before it hands any of the two requested URLs to
`processNovel`. -/
theorem main_fails_when_mkdir_fails :
    getRequestedNovelUrls twoNovelsEnv booksIsAFile.fs =
      .ok ["https://example.com/novel/a/", "https://example.com/novel/b/"] ∧
    (main twoNovelsEnv booksIsAFile).1 =
      some "EEXIST: file already exists, mkdir '/app/books'" ∧
    (main twoNovelsEnv booksIsAFile).2.1 = [] := by
  refine ⟨rfl, by decide, by decide⟩

/-- C9 (the code departs from the claim): the reset at the head of
`processNovel` leaves `author` and `fileAs` as they are, and `getMetadata`
assigns them only when the page has an author link.  After a pass over two
novels of which only the first has an author link, the metadata of the second
novel carries the author of the first one, while the same novel processed
first gets `Anonymous`. -/
theorem processNovel_keeps_previous_author :
    (main twoNovelsEnv initialWorld).1 = none ∧
    (main twoNovelsEnv initialWorld).2.1 =
      ["https://example.com/novel/a/", "https://example.com/novel/b/"] ∧
    (main twoNovelsEnv initialWorld).2.2.metadata.source = "https://example.com/novel/b/" ∧
    (main twoNovelsEnv initialWorld).2.2.metadata.title = "Novel B" ∧
    (main twoNovelsEnv initialWorld).2.2.metadata.author = "Jane Doe" ∧
    (main twoNovelsEnv initialWorld).2.2.metadata.fileAs = "Doe, Jane" ∧
    (processNovel twoNovelsEnv "https://example.com/novel/b/" initialWorld).2.metadata.author =
      "Anonymous" ∧
    (resetPerNovel "https://example.com/novel/b/"
        (processNovel twoNovelsEnv "https://example.com/novel/a/" initialWorld).2).metadata.author =
      "Jane Doe" := by
  refine ⟨by decide, by decide, by decide, by decide, by decide, by decide, by decide, by decide⟩

end NovelCrawler
